import Mathlib

/-!
# The OpenNebula context parser of cloud-agent (`agent/opennebula.c`)

A shallow embedding of the function `opennebula` and of the library routines it
calls, followed by theorems about it.

Conventions of the embedding.

* A C string is the list of its bytes, terminator excluded (`CStr`); it never
  holds the byte `'\0'`.  A piece of the line buffer that is walked past a
  terminator is a plain `List Char` in which `'\0'` stands for the NUL bytes.
* `int` results are `Int`; `unsigned short unit` is a `Nat` reduced modulo `2^16`.
* Memory allocation (`strdup`, `calloc`) is taken to succeed.
* The logging calls have no effect on the state and are left out.
* What the code reads from the outside world is collected in `Env`: the lines
  that `fparseln` hands out, the verdicts of the two registration functions of
  `main.h`, and the result of `SHA256File`.
-/

namespace OpenNebula

/-! ## C library -/

/-- The bytes of a NUL-terminated string, terminator excluded. -/
abbrev CStr := List Char

/-- C locale `tolower`. -/
def tolower (c : Char) : Char :=
  if 'A' ≤ c ∧ c ≤ 'Z' then Char.ofNat (c.toNat + 32) else c

/-- C locale `isalnum`. -/
def isalnum (c : Char) : Bool :=
  ('0' ≤ c ∧ c ≤ '9') ∨ ('a' ≤ c ∧ c ≤ 'z') ∨ ('A' ≤ c ∧ c ≤ 'Z')

/-- C locale `isdigit`. -/
def isdigit (c : Char) : Bool := '0' ≤ c ∧ c ≤ '9'

/-- C locale `isspace`: space, `\t`, `\n`, `\v`, `\f`, `\r`. -/
def isspace (c : Char) : Bool :=
  c = ' ' ∨ c = '\t' ∨ c = '\n' ∨ c = Char.ofNat 11 ∨ c = Char.ofNat 12 ∨ c = '\r'

/-- The function `strcmp`: difference of the first pair of bytes that differ (0 when equal). -/
def strcmp : CStr → CStr → Int
  | [], [] => 0
  | [], b :: _ => 0 - (b.toNat : Int)
  | a :: _, [] => (a.toNat : Int)
  | a :: as, b :: bs =>
    if a = b then strcmp as bs else (a.toNat : Int) - (b.toNat : Int)

/-- The function `strcasecmp`: as `strcmp`, on the lower-cased bytes. -/
def strcasecmp : CStr → CStr → Int
  | [], [] => 0
  | [], b :: _ => 0 - ((tolower b).toNat : Int)
  | a :: _, [] => ((tolower a).toNat : Int)
  | a :: as, b :: bs =>
    if tolower a = tolower b then strcasecmp as bs
    else ((tolower a).toNat : Int) - ((tolower b).toNat : Int)

/-- The function `strcspn`: length of the longest prefix of `s` free of the bytes of `reject`. -/
def strcspn (s reject : CStr) : Nat :=
  (s.takeWhile (fun c => decide (c ∉ reject))).length

/-- The function `strspn`: length of the longest prefix of `s` made of bytes of `accept`. -/
def strspn (s accept : CStr) : Nat :=
  (s.takeWhile (fun c => decide (c ∈ accept))).length

/-- The function `strchr`: offset of the first `c` in `s`, `none` for `NULL`. -/
def strchr : CStr → Char → Option Nat
  | [], _ => none
  | x :: xs, c => if x = c then some 0 else (strchr xs c).map (· + 1)

/-- The function `strrchr`: offset of the last `c` in `s`, `none` for `NULL`. -/
def strrchr : CStr → Char → Option Nat
  | [], _ => none
  | x :: xs, c =>
    match strrchr xs c with
    | some i => some (i + 1)
    | none => if x = c then some 0 else none

/-- Bounds of `long long`. -/
def LLONG_MAX : Int := 9223372036854775807

/-- Lower bound of `long long`. -/
def LLONG_MIN : Int := -9223372036854775808

/-- Upper bound of `unsigned short`. -/
def UINT16_MAX : Int := 65535

/-- Value of a run of decimal digits, most significant first. -/
def digitsValue (ds : CStr) : Nat :=
  ds.foldl (fun a c => 10 * a + (c.toNat - 48)) 0

/-- The call `strtoll(nptr, &ep, 10)`: white space, an optional sign, then digits.
`none` when no digit is found (`ep == nptr`); otherwise the value clamped to
`long long`, whether it was clamped (`errno == ERANGE`), and the text left at `ep`. -/
def strtoll10 (nptr : CStr) : Option (Int × Bool × CStr) :=
  let s := nptr.dropWhile isspace
  let neg : Bool := s.head? = some '-'
  let s := if s.head? = some '-' ∨ s.head? = some '+' then s.tail else s
  let ds := s.takeWhile isdigit
  if ds = [] then none
  else
    let x : Int := if neg then 0 - (digitsValue ds : Int) else (digitsValue ds : Int)
    some (max LLONG_MIN (min LLONG_MAX x), decide (x < LLONG_MIN ∨ LLONG_MAX < x),
      s.dropWhile isdigit)

/-- The three messages of `strtonum`. -/
inductive Errstr
  | invalid
  | too_small
  | too_large
  deriving DecidableEq

/-- The function `strtonum` of OpenBSD: the number and `errstr` (`none` for `NULL`). -/
def strtonum (numstr : CStr) (minval maxval : Int) : Int × Option Errstr :=
  if minval > maxval then (0, some .invalid)
  else
    match strtoll10 numstr with
    | none => (0, some .invalid)
    | some (ll, erange, ep) =>
      if ep ≠ [] then (0, some .invalid)
      else if (ll = LLONG_MIN ∧ erange = true) ∨ ll < minval then (0, some .too_small)
      else if (ll = LLONG_MAX ∧ erange = true) ∨ ll > maxval then (0, some .too_large)
      else (ll, none)

/-- Matching of a `*` of a shell pattern: `rest` is tried at every suffix of the text. -/
def fnmatch_star (rest : CStr → Bool) : CStr → Bool
  | [] => rest []
  | c :: s => rest (c :: s) || fnmatch_star rest s

/-- Shell pattern matching for patterns made of ordinary bytes, `?` and `*` (bracket
expressions and backslash escapes do not occur in the pattern of this program). -/
def fnmatch_glob : CStr → CStr → Bool
  | [], s => s.isEmpty
  | c :: p, s =>
    if c = '*' then fnmatch_star (fnmatch_glob p) s
    else
      match s with
      | [] => false
      | d :: s' => (c = '?' || c = d) && fnmatch_glob p s'

/-- Result of `fnmatch` when the text does not match. -/
def FNM_NOMATCH : Int := 1

/-- The function `fnmatch` with `flags == 0`: 0 on a match, `FNM_NOMATCH` otherwise. -/
def fnmatch (pattern string : CStr) (_flags : Int) : Int :=
  if fnmatch_glob pattern string then 0 else FNM_NOMATCH

/-! ## Data model (`main.h`) -/

/-- Address families passed to `agent_addnetaddr`. -/
inductive AddrFamily
  | AF_UNSPEC
  | AF_INET
  | AF_INET6
  deriving DecidableEq

/-- The `enum net_type` values used by this file. -/
inductive net_type
  | NET_DNS
  | NET_DNS_DOMAIN
  | NET_IP
  | NET_MASK
  | NET_GATEWAY
  | NET_PREFIX
  | NET_MAC
  | NET_MTU
  deriving DecidableEq

/-- Modelled from the spec: `struct net_addr` of `main.h` is not part of this file; a
NetworkAddress has a unit, a family, a kind and the raw textual value. -/
structure net_addr where
  net_unit : Nat
  net_af : AddrFamily
  net_type : net_type
  net_value : CStr
  deriving DecidableEq

/-- Modelled from the spec: `struct system_config` of `main.h` is not part of this file;
these are the fields `opennebula` and its two collaborators write: provenance, the
network flag, host name, instance id, the address list and the public keys. -/
structure system_config where
  sc_stack : Option CStr
  sc_network : Int
  sc_hostname : Option CStr
  sc_instance : Option CStr
  sc_netaddr : List net_addr
  sc_pubkeys : List (CStr × Option CStr)
  deriving DecidableEq

/-- One non-`NULL` result of `fparseln(fp, &len, &lineno, delim, FPARSELN_UNESCALL)`:
the logical line and the value of `lineno` after the call.  `fparseln` adds to
`lineno` the number of physical lines it read, so a logical line that was joined
from several physical lines advances it by more than one. -/
structure Line where
  lineno : Nat
  text : CStr
  deriving DecidableEq

/-- What the function reads from outside.
* `context`: `none` when `fopen("/mnt/context.sh")` fails, otherwise the lines
  `fparseln` returns until it returns `NULL`;
* `addnetaddr_ret`, `addpubkey_ret`: the result codes of `agent_addnetaddr` and
  `agent_addpubkey` for a configuration and a candidate entry;
* `SHA256File`: the digest string, `none` when `SHA256File` returns `NULL`. -/
structure Env where
  context : Option (List Line)
  addnetaddr_ret : system_config → net_addr → Int
  addpubkey_ret : system_config → CStr → Int
  SHA256File : Option CStr

/-- Modelled from the spec: `agent_addnetaddr` is declared in `main.h` and defined
outside this file.  It is the network-address registration function
`(config, unit, rawValue, family, kind) → success/failure`: on success (result 0)
the new entry is appended to the address list, on failure the list is unchanged. -/
def agent_addnetaddr (env : Env) (sc : system_config) (unit : Nat) (value : CStr)
    (af : AddrFamily) (kind : net_type) : Int × system_config :=
  let na : net_addr := ⟨unit, af, kind, value⟩
  let r := env.addnetaddr_ret sc na
  if r = 0 then (0, { sc with sc_netaddr := sc.sc_netaddr ++ [na] }) else (r, sc)

/-- Modelled from the spec: `agent_addpubkey` is declared in `main.h` and defined
outside this file.  It is the public-key registration function
`(config, rawValue, optionalComment) → success/failure`: on success the key is
appended to the key list. -/
def agent_addpubkey (env : Env) (sc : system_config) (value : CStr)
    (comment : Option CStr) : Int × system_config :=
  let r := env.addpubkey_ret sc value
  if r = 0 then (0, { sc with sc_pubkeys := sc.sc_pubkeys ++ [(value, comment)] }) else (r, sc)

/-! ## `opennebula` -/

/-- The header every context starts with. -/
def HEADER : CStr := "# Context variables generated by OpenNebula".toList

/-- The local variables that live across iterations of the `while` loop, with the
configuration: `sc`, `hname` (`none` for `NULL`) and `ret`. -/
structure State where
  sc : system_config
  hname : Option CStr
  ret : Int
  deriving DecidableEq

/-- How the body of the `while` loop is left. -/
inductive Flow
  | next (st : State)
  | done (st : State)
  | overrun
  deriving DecidableEq

/-- Lines 64 to 86: comment stripping, split at the first `=`, dequoting.  `none`
when the line is skipped (`free(line); continue;`), otherwise the key `k`, the
value `v`, and the bytes that lie behind the closing quote in the line buffer:
the text after the quote, the NUL that now ends the line and, when a `#` was
overwritten, the comment with the NUL that ended the line when it was read. -/
def splitLine (line : CStr) : Option (CStr × CStr × List Char) :=
  let n := strcspn line "#".toList
  let behind : List Char :=
    if n < line.length then '\x00' :: (line.drop (n + 1) ++ ['\x00']) else ['\x00']
  let line := line.take n
  match strchr line '=' with
  | none => none
  | some i =>
    if line.drop (i + 1) = [] then none
    else
      let k := line.take i
      let v := line.drop (i + 1)
      let q := v.headD '\x00'
      if strspn v "\"'".toList = 0 then none
      else
        match strrchr v q with
        | none => none
        | some p =>
          if p = 0 then none
          else
            let behind := v.drop (p + 1) ++ behind
            let v := (v.take p).drop 1
            if v = [] then none else some (k, v, behind)

/-- The C string that starts at the head of a piece of memory. -/
def cstrAt (mem : List Char) : CStr := mem.takeWhile (fun c => decide (c ≠ '\x00'))

/-- The loop of lines 114 to 120 (and 122 to 128), `mem` being the buffer from `p` on:
`for (p = v; *p != '\0'; v = p) { p = v + strcspn(v, " \t"); *p++ = '\0';
if ((ret = agent_addnetaddr(sc, 0, v, AF_UNSPEC, kind)) != 0) break; }`.
The result is `none` when `p` is moved past the NUL that ended the line when it was
read, where what `*p` reads is not determined by the line.  Every iteration consumes a byte, so
fuel `mem.length + 1` is never used up. -/
def tokenLoop (env : Env) (kind : net_type) :
    Nat → Int → system_config → List Char → Option (Int × system_config)
  | 0, _, _, _ => none
  | fuel + 1, ret, sc, mem =>
    match mem with
    | [] => none
    | c :: _ =>
      if c = '\x00' then some (ret, sc)
      else
        let v := cstrAt mem
        let n := strcspn v " \t".toList
        let r := agent_addnetaddr env sc 0 (v.take n) .AF_UNSPEC kind
        if r.1 ≠ 0 then some r
        else tokenLoop env kind fuel r.1 r.2 (mem.drop (n + 1))

/-- Lines 172 to 176: `if (ret != 0) goto done;`, then `free(line)` and the next line. -/
def checkRet (hname : Option CStr) (r : Int × system_config) : Flow :=
  if r.1 ≠ 0 then .done ⟨r.2, hname, r.1⟩ else .next ⟨r.2, hname, r.1⟩

/-- Lines 112 to 176: the dispatch on the subkey `k` of an interface key, `unit`
being the interface number. -/
def subKey (env : Env) (st : State) (unit : Nat) (k v : CStr) (behind : List Char) : Flow :=
  let mem : List Char := v ++ '\x00' :: behind
  if strcasecmp "DNS".toList k = 0 then
    match tokenLoop env .NET_DNS (mem.length + 1) st.ret st.sc mem with
    | none => .overrun
    | some r => checkRet st.hname r
  else if strcasecmp "SEARCH_DOMAIN".toList k = 0 then
    match tokenLoop env .NET_DNS_DOMAIN (mem.length + 1) st.ret st.sc mem with
    | none => .overrun
    | some r => checkRet st.hname r
  else if strcasecmp "IP".toList k = 0 then
    checkRet st.hname (agent_addnetaddr env st.sc unit v .AF_INET .NET_IP)
  else if strcasecmp "MASK".toList k = 0 then
    checkRet st.hname (agent_addnetaddr env st.sc unit v .AF_INET .NET_MASK)
  else if strcasecmp "GATEWAY".toList k = 0 then
    checkRet st.hname (agent_addnetaddr env st.sc unit v .AF_INET .NET_GATEWAY)
  else if strcasecmp "IP6".toList k = 0 then
    checkRet st.hname (agent_addnetaddr env st.sc unit v .AF_INET6 .NET_IP)
  else if strcasecmp "GATEWAY6".toList k = 0 then
    checkRet st.hname (agent_addnetaddr env st.sc unit v .AF_INET6 .NET_GATEWAY)
  else if strcasecmp "PREFIX_LENGTH".toList k = 0 then
    checkRet st.hname (agent_addnetaddr env st.sc unit v .AF_INET6 .NET_PREFIX)
  else if strcasecmp "MAC".toList k = 0 then
    let hname :=
      if unit = 0 ∧ st.hname = none then some ("vm".toList ++ v.filter isalnum)
      else st.hname
    checkRet hname (agent_addnetaddr env st.sc unit v .AF_UNSPEC .NET_MAC)
  else if strcasecmp "MTU".toList k = 0 then
    checkRet st.hname (agent_addnetaddr env st.sc unit v .AF_UNSPEC .NET_MTU)
  else
    checkRet st.hname (0, st.sc)

/-- Lines 97 to 101: the text of the unit, `strdup(k + 3)` cut at its first `_`. -/
def unitText (k : CStr) : CStr :=
  (k.drop 3).take (strcspn (k.drop 3) "_".toList)

/-- Line 110: the subkey, `k += strcspn(k, "_") + 1`. -/
def subkeyText (k : CStr) : CStr :=
  k.drop (strcspn k "_".toList + 1)

/-- Lines 96 to 110: a key that matches `ETH*_*`; the unit is read by `strtonum`, a
unit it rejects ends the loop with `goto done`. -/
def ethKey (env : Env) (st : State) (k v : CStr) (behind : List Char) : Flow :=
  let num := strtonum (unitText k) 0 UINT16_MAX
  if num.2.isSome then .done st
  else
    let unit : Nat := num.1.toNat % 65536
    subKey env st unit (subkeyText k) v behind

/-- Lines 90 to 183: the dispatch on the key. -/
def dispatch (env : Env) (st : State) (k v : CStr) (behind : List Char) : Flow :=
  if strcasecmp "NETWORK".toList k = 0 then
    if strcasecmp "YES".toList v = 0 then
      .next { st with sc := { st.sc with sc_network := 1 } }
    else if strcasecmp "YES".toList v = 0 then
      .next { st with sc := { st.sc with sc_network := 0 } }
    else .next st
  else if fnmatch "ETH*_*".toList k 0 ≠ FNM_NOMATCH then
    ethKey env st k v behind
  else if strcasecmp "HOSTNAME".toList k = 0 then
    .next { st with hname := some v }
  else if strcasecmp "SSH_PUBLIC_KEY".toList k = 0 then
    .next { st with sc := (agent_addpubkey env st.sc v none).2 }
  else .next st

/-- The body of the `while` loop (lines 50 to 185) for one line. -/
def step (env : Env) (st : State) (l : Line) : Flow :=
  if l.lineno = 1 then
    let ret := strcmp l.text HEADER
    if ret ≠ 0 then .done { st with ret := ret } else .next { st with ret := ret }
  else
    match splitLine l.text with
    | none => .next st
    | some (k, v, behind) => dispatch env st k v behind

/-- The `while` loop of lines 48 to 186: `next st` when `fparseln` returned `NULL`
with the state `st`, `done st` when a `goto done` left the loop. -/
def parseLoop (env : Env) : State → List Line → Flow
  | st, [] => .next st
  | st, l :: ls =>
    match step env st l with
    | .next st' => parseLoop env st' ls
    | .done st' => .done st'
    | .overrun => .overrun

/-- Lines 188 to 213, after the loop: the instance id, then the host name.  When
`SHA256File` returns `NULL`, `sc_instance` already points at the zeroed buffer that
`calloc` returned (the empty string) and `goto done` returns `ret` as it stands. -/
def finish (env : Env) (st : State) : Int × system_config :=
  match env.SHA256File with
  | none => (st.ret, { st.sc with sc_instance := some [] })
  | some digest =>
    let sc := { st.sc with sc_instance := some digest }
    let sc := match st.hname with
      | some h => { sc with sc_hostname := some h }
      | none => sc
    (0, sc)

/-- The state in which the `while` loop is entered: `sc->sc_stack = "opennebula"`,
`hname = NULL`, `ret = -1`. -/
def initState (sc : system_config) : State :=
  ⟨{ sc with sc_stack := some "opennebula".toList }, none, -1⟩

/-- The function `opennebula(sc)`: the value returned and the configuration left
behind; `none` when a DNS loop ran past the end of a line. -/
def opennebula (env : Env) (sc : system_config) : Option (Int × system_config) :=
  match env.context with
  | none => some (-1, sc)
  | some lines =>
    match parseLoop env (initState sc) lines with
    | .overrun => none
    | .done st => some (st.ret, st.sc)
    | .next st => some (finish env st)

/-! ## Vocabulary of the statements -/

/-- The text `u` is a decimal numeral of `n`: a non-empty run of digits of value `n`. -/
def IsDecimal (u : CStr) (n : Nat) : Prop :=
  u ≠ [] ∧ (∀ c ∈ u, isdigit c = true) ∧ digitsValue u = n

/-- The single-valued subkeys as the specification lists them: subkey, family, kind. -/
def singleTable : List (CStr × AddrFamily × net_type) :=
  [("IP".toList, .AF_INET, .NET_IP), ("MASK".toList, .AF_INET, .NET_MASK),
   ("GATEWAY".toList, .AF_INET, .NET_GATEWAY), ("IP6".toList, .AF_INET6, .NET_IP),
   ("GATEWAY6".toList, .AF_INET6, .NET_GATEWAY),
   ("PREFIX_LENGTH".toList, .AF_INET6, .NET_PREFIX),
   ("MAC".toList, .AF_UNSPEC, .NET_MAC), ("MTU".toList, .AF_UNSPEC, .NET_MTU)]

/-- Tokens joined by single separator bytes: the first token, then each further token
with the separator in front of it. -/
def joinTokens : CStr → List (Char × CStr) → CStr
  | t0, [] => t0
  | t0, (s, t) :: rest => t0 ++ s :: joinTokens t rest

/-- A token of a list value: not empty and free of space, tab, `#`, quotes and NUL. -/
@[reducible] def GoodToken (t : CStr) : Prop :=
  t ≠ [] ∧ ∀ c ∈ t, c ≠ ' ' ∧ c ≠ '\t' ∧ c ≠ '#' ∧ c ≠ '"' ∧ c ≠ '\'' ∧ c ≠ '\x00'

/-- The line as it is after comment stripping: the text in front of the first `#`. -/
def stripComment (line : CStr) : CStr := line.takeWhile (fun c => decide (c ≠ '#'))

/-- The malformed lines of the specification, read on the comment-stripped line: no
`=`; nothing behind the first `=`; a value that does not begin with a quote; an
opening quote with no later quote of its kind; an empty quoted text. -/
def Malformed (line : CStr) : Prop :=
  '=' ∉ stripComment line ∨
  (∃ k, '=' ∉ k ∧ stripComment line = k ++ ['=']) ∨
  (∃ k c r, '=' ∉ k ∧ stripComment line = k ++ '=' :: c :: r ∧ c ≠ '"' ∧ c ≠ '\'') ∨
  (∃ k q r, '=' ∉ k ∧ stripComment line = k ++ '=' :: q :: r ∧ (q = '"' ∨ q = '\'') ∧ q ∉ r) ∨
  (∃ k q r, '=' ∉ k ∧ stripComment line = k ++ '=' :: q :: q :: r ∧ (q = '"' ∨ q = '\'') ∧
    q ∉ r)

/-- The value of a line whose key is `HOSTNAME` (in any letter case), `none` for any
other line. -/
def hostnameOf (l : Line) : Option CStr :=
  if l.lineno = 1 then none
  else
    match splitLine l.text with
    | none => none
    | some (k, v, _) => if strcasecmp "HOSTNAME".toList k = 0 then some v else none

/-- Unit and value of an interface line with a unit that `strtonum` accepts and the
subkey `MAC` (in any letter case), `none` for any other line. -/
def macOf (l : Line) : Option (Nat × CStr) :=
  if l.lineno = 1 then none
  else
    match splitLine l.text with
    | none => none
    | some (k, v, _) =>
      if fnmatch "ETH*_*".toList k 0 ≠ FNM_NOMATCH ∧
          (strtonum (unitText k) 0 UINT16_MAX).2 = none ∧
          strcasecmp "MAC".toList (subkeyText k) = 0 then
        some ((strtonum (unitText k) 0 UINT16_MAX).1.toNat % 65536, v)
      else none

/-- The value of a `MAC` line of unit 0. -/
def mac0Of (l : Line) : Option CStr :=
  match macOf l with
  | some (u, v) => if u = 0 then some v else none
  | none => none

/-- The host name staged after a line, from the one staged before it: a `HOSTNAME`
line always replaces it, a `MAC` line of unit 0 fills it when it is empty. -/
def stage (hname : Option CStr) (l : Line) : Option CStr :=
  match hostnameOf l with
  | some x => some x
  | none =>
    match macOf l with
    | some (u, v) =>
      if u = 0 ∧ hname = none then some ("vm".toList ++ v.filter isalnum) else hname
    | none => hname

/-- The key of a line: the comment-stripped text in front of its first `=`. -/
def keyOf (line : CStr) : CStr := (stripComment line).takeWhile (fun c => decide (c ≠ '='))

/-- The subkeys the dispatch knows. -/
def subkeyNames : List CStr :=
  ["DNS".toList, "SEARCH_DOMAIN".toList, "IP".toList, "MASK".toList, "GATEWAY".toList,
   "IP6".toList, "GATEWAY6".toList, "PREFIX_LENGTH".toList, "MAC".toList, "MTU".toList]

/-- A configuration in which nothing is set. -/
def freshConfig : system_config := ⟨none, 0, none, none, [], []⟩

/-- An environment in which both registration functions accept every entry. -/
def envOf (context : Option (List Line)) (digest : Option CStr) : Env :=
  ⟨context, fun _ _ => 0, fun _ _ => 0, digest⟩

/-- An address of kind DNS or DNS_SEARCH_DOMAIN carries unit 0. -/
@[reducible] def DnsUnitZero (a : net_addr) : Prop :=
  (a.net_type = .NET_DNS ∨ a.net_type = .NET_DNS_DOMAIN) → a.net_unit = 0

/-- The configuration `sc'` comes from `sc` by appending addresses that satisfy
`DnsUnitZero`, with `sc_stack`, `sc_hostname` and `sc_instance` untouched (the network
flag and the public keys may differ). -/
def Grows (sc sc' : system_config) : Prop :=
  sc'.sc_stack = sc.sc_stack ∧ sc'.sc_hostname = sc.sc_hostname ∧
  sc'.sc_instance = sc.sc_instance ∧
  ∃ ext, sc'.sc_netaddr = sc.sc_netaddr ++ ext ∧ ∀ a ∈ ext, DnsUnitZero a

/-- The body of the loop, or the loop, is left with the state `st'`, by going on or by
`goto done`. -/
def Reaches (f : Flow) (st' : State) : Prop := f = .next st' ∨ f = .done st'

/-- Tokens that stand in front of a text, each followed by its separator byte. -/
def joinBefore : List (CStr × Char) → CStr → CStr
  | [], r => r
  | (t, s) :: a, r => t ++ s :: joinBefore a r

/-- The two list-valued subkeys as the specification lists them: subkey and kind. -/
def listTable : List (CStr × net_type) :=
  [("DNS".toList, .NET_DNS), ("SEARCH_DOMAIN".toList, .NET_DNS_DOMAIN)]

/-- The configuration with further addresses of unit 0 and unspecified family, one per
token. -/
def withTokens (sc : system_config) (kind : net_type) (toks : List CStr) : system_config :=
  { sc with sc_netaddr := sc.sc_netaddr ++ toks.map (fun t => ⟨0, .AF_UNSPEC, kind, t⟩) }

/-- An environment in which the registration of addresses always reports the failure
`-1`. -/
def envRejecting (context : Option (List Line)) (digest : Option CStr) : Env :=
  ⟨context, fun _ _ => -1, fun _ _ => 0, digest⟩

/-! ## Facts about the library routines and the parts of the loop -/

theorem strcspn_all {a reject : CStr} (ha : ∀ c ∈ a, c ∉ reject) :
    strcspn a reject = a.length := by
  unfold strcspn
  rw [List.takeWhile_eq_self_iff.2]
  intro c hc
  simpa using ha c hc

theorem strcspn_append_cons {a b reject : CStr} {d : Char} (ha : ∀ c ∈ a, c ∉ reject)
    (hd : d ∈ reject) : strcspn (a ++ d :: b) reject = a.length := by
  unfold strcspn
  rw [List.takeWhile_append_of_pos (by intro c hc; simpa using ha c hc),
    List.takeWhile_cons_of_neg (by simpa using hd)]
  simp

theorem strchr_none {a : CStr} {c : Char} (h : c ∉ a) : strchr a c = none := by
  induction a with
  | nil => rfl
  | cons x xs ih =>
    have hx : x ≠ c := fun e => h (by simp [e])
    have hxs : c ∉ xs := fun e => h (by simp [e])
    simp [strchr, hx, ih hxs]

theorem strchr_append_cons {a b : CStr} {c : Char} (h : c ∉ a) :
    strchr (a ++ c :: b) c = some a.length := by
  induction a with
  | nil => simp [strchr]
  | cons x xs ih =>
    have hx : x ≠ c := fun e => h (by simp [e])
    have hxs : c ∉ xs := fun e => h (by simp [e])
    simp [strchr, hx, ih hxs]

theorem strrchr_none {a : CStr} {c : Char} (h : c ∉ a) : strrchr a c = none := by
  induction a with
  | nil => rfl
  | cons x xs ih =>
    have hx : x ≠ c := fun e => h (by simp [e])
    have hxs : c ∉ xs := fun e => h (by simp [e])
    simp [strrchr, hx, ih hxs]

theorem strrchr_append_cons {a b : CStr} {c : Char} (h : c ∉ b) :
    strrchr (a ++ c :: b) c = some a.length := by
  induction a with
  | nil => simp [strrchr, strrchr_none h]
  | cons x xs ih => simp [strrchr, ih]

/-- A line `k=qXq` with a quote `q`, no `#` and no `=` in `k`, no `#` and no `q` in the
non-empty `X` is split into the key `k` and the value `X`, with nothing behind the
closing quote but the terminator. -/
theorem splitLine_quoted {k X : CStr} {q : Char} (hq : q = '"' ∨ q = '\'')
    (hk1 : '#' ∉ k) (hk2 : '=' ∉ k) (hX : X ≠ []) (hX1 : '#' ∉ X) (hX2 : q ∉ X) :
    splitLine (k ++ '=' :: q :: (X ++ [q])) = some (k, X, ['\x00']) := by
  have hq' : q ≠ '#' := by rcases hq with rfl | rfl <;> decide
  have hall : ∀ c ∈ k ++ '=' :: q :: (X ++ [q]), c ∉ "#".toList := by
    intro c hc
    simp only [List.mem_append, List.mem_cons, List.mem_singleton, List.not_mem_nil,
      or_false] at hc
    have : c ≠ '#' := by
      rcases hc with h | h | h | h | h
      · exact fun e => hk1 (e ▸ h)
      · rw [h]; decide
      · rw [h]; exact hq'
      · exact fun e => hX1 (e ▸ h)
      · rw [h]; exact hq'
    simpa using this
  have hv : strrchr (q :: (X ++ [q])) q = some (X.length + 1) := by
    have := strrchr_append_cons (a := q :: X) (b := []) (c := q) (by simp)
    simpa using this
  have hsp : strspn (q :: (X ++ [q])) ['"', '\''] ≠ 0 := by
    rcases hq with rfl | rfl <;> simp [strspn, List.takeWhile]
  unfold splitLine
  simp only [strcspn_all hall, lt_irrefl, if_false, List.take_length,
    strchr_append_cons hk2, List.drop_left', List.drop_succ_cons, List.take_left',
    List.headD_cons]
  simp [hX, hv, hsp]

theorem digitChar_digit {m : Nat} (h : m < 10) :
    isdigit (Nat.digitChar m) = true ∧ (Nat.digitChar m).toNat - 48 = m := by
  interval_cases m <;> exact ⟨by decide, by decide⟩

theorem digitsValue_concat (a : CStr) (c : Char) :
    digitsValue (a ++ [c]) = 10 * digitsValue a + (c.toNat - 48) := by
  simp [digitsValue, List.foldl_append]

theorem toDigitsCore_decimal : ∀ (fuel n : Nat) (ds : List Char), n < fuel →
    ∃ pre, Nat.toDigitsCore 10 fuel n ds = pre ++ ds ∧ IsDecimal pre n := by
  intro fuel
  induction fuel with
  | zero => intro n ds h; omega
  | succ fuel ih =>
    intro n ds h
    have hd := digitChar_digit (Nat.mod_lt n (by decide : 10 > 0))
    unfold Nat.toDigitsCore
    by_cases h0 : n / 10 = 0
    · refine ⟨[Nat.digitChar (n % 10)], by simp [h0], by simp, ?_, ?_⟩
      · intro c hc
        rw [List.mem_singleton.1 hc]; exact hd.1
      · have := digitsValue_concat [] (Nat.digitChar (n % 10))
        simp only [List.nil_append] at this
        rw [this, hd.2]
        simp only [digitsValue, List.foldl_nil]
        omega
    · obtain ⟨pre, hpre, hne, hdig, hval⟩ := ih (n / 10) (Nat.digitChar (n % 10) :: ds) (by omega)
      refine ⟨pre ++ [Nat.digitChar (n % 10)], by simp [h0, hpre], by simp, ?_, ?_⟩
      · intro c hc
        rcases List.mem_append.1 hc with hc | hc
        · exact hdig c hc
        · rw [List.mem_singleton.1 hc]; exact hd.1
      · rw [digitsValue_concat, hd.2, hval]
        omega

/-- The decimal text that `Nat.repr` writes for `n` is a decimal numeral of `n`. -/
theorem isDecimal_repr (n : Nat) : IsDecimal (Nat.repr n).toList n := by
  obtain ⟨pre, hpre, h⟩ := toDigitsCore_decimal (n + 1) n [] (by omega)
  have : (Nat.repr n).toList = pre := by
    simp [Nat.repr, Nat.toDigits, hpre, List.asString]
  rw [this]; exact h

theorem isdigit_not_mem {c : Char} (h : isdigit c = true) {l : List Char}
    (hl : ∀ x ∈ l, isdigit x = false) : c ∉ l := by
  intro hc
  have := hl c hc
  rw [h] at this
  exact Bool.noConfusion this

theorem isdigit_not_space {c : Char} (h : isdigit c = true) : isspace c = false := by
  cases hs : isspace c with
  | false => rfl
  | true =>
    exfalso
    simp only [isspace, Bool.decide_or, Bool.or_eq_true, decide_eq_true_eq] at hs
    rcases hs with rfl | rfl | rfl | rfl | rfl | rfl <;> revert h <;> decide

/-- The function `strtonum` reads a decimal numeral of a number up to 65535 as that number. -/
theorem strtonum_decimal {u : CStr} {n : Nat} (h : IsDecimal u n) (hn : n ≤ 65535) :
    strtonum u 0 UINT16_MAX = ((n : Int), none) := by
  obtain ⟨hne, hdig, hval⟩ := h
  obtain ⟨d, r, rfl⟩ := List.exists_cons_of_ne_nil hne
  have hd : isdigit d = true := hdig d (by simp)
  have hsp : isspace d = false := isdigit_not_space hd
  have hm : d ≠ '-' := by rintro rfl; revert hd; decide
  have hp : d ≠ '+' := by rintro rfl; revert hd; decide
  have htw : List.takeWhile isdigit (d :: r) = d :: r :=
    List.takeWhile_eq_self_iff.2 hdig
  have hdw : List.dropWhile isdigit (d :: r) = [] :=
    List.dropWhile_eq_nil_iff.2 hdig
  have h1 : strtoll10 (d :: r) = some ((n : Int), false, []) := by
    unfold strtoll10
    simp only [List.dropWhile_cons_of_neg (by simp [hsp] : ¬ isspace d = true),
      List.head?_cons, Option.some.injEq, hm, hp, or_self, if_false, htw, hdw, hval,
      decide_False, Bool.false_eq_true, reduceCtorEq]
    simp only [LLONG_MAX, LLONG_MIN]
    have h2 : min (9223372036854775807 : Int) (n : Int) = n := by omega
    have h3 : max (-9223372036854775808 : Int) (n : Int) = n := by omega
    rw [h2, h3]
    simp
    omega
  unfold strtonum
  simp only [h1, UINT16_MAX, LLONG_MAX, LLONG_MIN]
  simp
  rw [if_neg (by omega), if_neg (by omega)]

theorem fnmatch_star_suffix {f : CStr → Bool} {a s : CStr} (h : f s = true) :
    fnmatch_star f (a ++ s) = true := by
  induction a with
  | nil => cases s <;> simp [fnmatch_star, h]
  | cons x xs ih => simp [fnmatch_star, ih]

theorem fnmatch_star_nil (s : CStr) : fnmatch_star (fnmatch_glob []) s = true := by
  induction s with
  | nil => simp [fnmatch_star, fnmatch_glob]
  | cons x xs ih => simp [fnmatch_star, ih]

theorem fnmatch_glob_lit {c d : Char} (p s : CStr) (h1 : c ≠ '*') (h2 : c = d) :
    fnmatch_glob (c :: p) (d :: s) = fnmatch_glob p s := by
  subst h2
  simp only [fnmatch_glob, if_neg h1]
  simp

theorem fnmatch_glob_star (p s : CStr) :
    fnmatch_glob ('*' :: p) s = fnmatch_star (fnmatch_glob p) s := by
  simp only [fnmatch_glob, if_true]

/-- Every key `ETH<u>_<sub>` matches the pattern `ETH*_*`. -/
theorem fnmatch_eth (u sub : CStr) :
    fnmatch "ETH*_*".toList ('E' :: 'T' :: 'H' :: (u ++ '_' :: sub)) 0 = 0 := by
  have h : fnmatch_glob ['_', '*'] ('_' :: sub) = true := by
    rw [fnmatch_glob_lit _ _ (by decide) rfl, fnmatch_glob_star, fnmatch_star_nil]
  have h2 := fnmatch_star_suffix (f := fnmatch_glob ['_', '*']) (a := u) h
  have h3 : fnmatch_glob "ETH*_*".toList ('E' :: 'T' :: 'H' :: (u ++ '_' :: sub)) = true := by
    show fnmatch_glob ['E', 'T', 'H', '*', '_', '*'] _ = true
    rw [fnmatch_glob_lit _ _ (by decide) rfl, fnmatch_glob_lit _ _ (by decide) rfl,
      fnmatch_glob_lit _ _ (by decide) rfl, fnmatch_glob_star, h2]
  unfold fnmatch
  rw [if_pos h3]

theorem not_mem_digits {u : CStr} (hu : ∀ c ∈ u, isdigit c = true) {c : Char}
    (hc : isdigit c = false) : c ∉ u := by
  intro h
  rw [hu c h] at hc
  exact Bool.noConfusion hc

/-- An interface key with a decimal unit `n` up to 65535 goes to the subkey dispatch
with that unit and the text behind the first `_`. -/
theorem ethKey_decimal (env : Env) (st : State) {u : CStr} {n : Nat} (sub v : CStr)
    (behind : List Char) (hu : IsDecimal u n) (hn : n ≤ 65535) :
    ethKey env st ('E' :: 'T' :: 'H' :: (u ++ '_' :: sub)) v behind
      = subKey env st n sub v behind := by
  have hus : ∀ c ∈ u, c ∉ "_".toList := by
    intro c hc
    have : c ≠ '_' := by
      rintro rfl
      exact not_mem_digits hu.2.1 (by decide) hc
    simpa using this
  have h1 : strcspn (u ++ '_' :: sub) "_".toList = u.length :=
    strcspn_append_cons hus (by decide)
  have h2 : strcspn ('E' :: 'T' :: 'H' :: (u ++ '_' :: sub)) "_".toList = u.length + 3 := by
    have := @strcspn_append_cons ('E' :: 'T' :: 'H' :: u) sub "_".toList '_' (by
        intro c hc
        simp only [List.mem_cons] at hc
        rcases hc with rfl | rfl | rfl | hc
        · decide
        · decide
        · decide
        · exact hus c hc) (by decide)
    simpa using this
  unfold ethKey unitText subkeyText
  simp only [List.drop_succ_cons, List.drop_zero, h1, h2, List.take_left',
    strtonum_decimal hu hn, Option.isSome_none, Bool.false_eq_true, if_false]
  have h3 : (n : Int).toNat % 65536 = n := by
    rw [Int.toNat_ofNat]; omega
  have h4 : List.drop (u.length + 1) (u ++ '_' :: sub) = sub := by
    have h5 : List.drop (u.length + 1) (u ++ '_' :: sub)
        = List.drop 1 (List.drop u.length (u ++ '_' :: sub)) := by
      rw [List.drop_drop]
    rw [h5, List.drop_left]; rfl
  rw [h3, h4]

theorem dispatch_eth (env : Env) (st : State) (r v : CStr) (behind : List Char) :
    dispatch env st ('E' :: 'T' :: 'H' :: r) v behind
      = if fnmatch "ETH*_*".toList ('E' :: 'T' :: 'H' :: r) 0 ≠ FNM_NOMATCH then
          ethKey env st ('E' :: 'T' :: 'H' :: r) v behind
        else .next st := by
  have h1 : strcasecmp "NETWORK".toList ('E' :: 'T' :: 'H' :: r) ≠ 0 := by
    show strcasecmp ('N' :: "ETWORK".toList) ('E' :: 'T' :: 'H' :: r) ≠ 0
    rw [strcasecmp, if_neg (by decide)]; decide
  have h2 : strcasecmp "HOSTNAME".toList ('E' :: 'T' :: 'H' :: r) ≠ 0 := by
    show strcasecmp ('H' :: "OSTNAME".toList) ('E' :: 'T' :: 'H' :: r) ≠ 0
    rw [strcasecmp, if_neg (by decide)]; decide
  have h3 : strcasecmp "SSH_PUBLIC_KEY".toList ('E' :: 'T' :: 'H' :: r) ≠ 0 := by
    show strcasecmp ('S' :: "SH_PUBLIC_KEY".toList) ('E' :: 'T' :: 'H' :: r) ≠ 0
    rw [strcasecmp, if_neg (by decide)]; decide
  unfold dispatch
  rw [if_neg h1]
  by_cases hf : fnmatch "ETH*_*".toList ('E' :: 'T' :: 'H' :: r) 0 ≠ FNM_NOMATCH
  · rw [if_pos hf, if_pos hf]
  · rw [if_neg hf, if_neg hf, if_neg h2, if_neg h3]

/-- A well-formed interface line `ETH<u>_<sub>=qXq` read after the header goes to the
subkey dispatch with the unit `n` that `u` denotes and the dequoted value `X`. -/
theorem step_eth_line (env : Env) (st : State) (ln : Nat) {u : CStr} {n : Nat}
    (sub X : CStr) (q : Char) (hl : ln ≠ 1) (hu : IsDecimal u n) (hn : n ≤ 65535)
    (hs1 : '#' ∉ sub) (hs2 : '=' ∉ sub)
    (hq : q = '"' ∨ q = '\'') (hX : X ≠ []) (hX1 : '#' ∉ X) (hX2 : q ∉ X) :
    step env st ⟨ln, 'E' :: 'T' :: 'H' :: (u ++ '_' :: sub) ++ '=' :: q :: (X ++ [q])⟩
      = subKey env st n sub X ['\x00'] := by
  have hk : ∀ c, isdigit c = false → c ∉ sub → c ≠ 'E' → c ≠ 'T' → c ≠ 'H' → c ≠ '_' →
      c ∉ 'E' :: 'T' :: 'H' :: (u ++ '_' :: sub) := by
    intro c hc hcs h1 h2 h3 h4 hmem
    simp only [List.mem_cons, List.mem_append] at hmem
    rcases hmem with h | h | h | h | h | h
    · exact h1 h
    · exact h2 h
    · exact h3 h
    · exact not_mem_digits hu.2.1 hc h
    · exact h4 h
    · exact hcs h
  have hk1 := hk '#' (by decide) hs1 (by decide) (by decide) (by decide) (by decide)
  have hk2 := hk '=' (by decide) hs2 (by decide) (by decide) (by decide) (by decide)
  unfold step
  simp only [hl, if_false, splitLine_quoted hq hk1 hk2 hX hX1 hX2]
  rw [dispatch_eth, if_pos (by rw [fnmatch_eth]; decide), ethKey_decimal _ _ _ _ _ hu hn]

theorem cstrAt_append_nul {t : CStr} (m : List Char) (ht : ∀ c ∈ t, c ≠ '\x00') :
    cstrAt (t ++ '\x00' :: m) = t := by
  unfold cstrAt
  rw [List.takeWhile_append_of_pos (by intro c hc; simpa using ht c hc),
    List.takeWhile_cons_of_neg (by simp)]
  simp

theorem cstrAt_append_cons {t : CStr} (d : Char) (m : List Char) (ht : ∀ c ∈ t, c ≠ '\x00')
    (hd : d ≠ '\x00') : cstrAt (t ++ d :: m) = t ++ d :: cstrAt m := by
  unfold cstrAt
  rw [List.takeWhile_append_of_pos (by intro c hc; simpa using ht c hc),
    List.takeWhile_cons_of_pos (by simpa using hd)]

/-- One iteration of the token loop: the token `t` that ends at the delimiter `d`
(space, tab or NUL) is registered, and the loop goes on behind `d`. -/
theorem tokenLoop_iter (env : Env) (kind : net_type) (fuel : Nat) (ret : Int)
    (sc : system_config) {t : CStr} {d : Char} (m : List Char)
    (ht : ∀ c ∈ t, c ≠ ' ' ∧ c ≠ '\t' ∧ c ≠ '\x00')
    (hd : d = ' ' ∨ d = '\t' ∨ d = '\x00') (hne : t ≠ [] ∨ d ≠ '\x00') :
    tokenLoop env kind (fuel + 1) ret sc (t ++ d :: m)
      = if (agent_addnetaddr env sc 0 t .AF_UNSPEC kind).1 ≠ 0 then
          some (agent_addnetaddr env sc 0 t .AF_UNSPEC kind)
        else tokenLoop env kind fuel (agent_addnetaddr env sc 0 t .AF_UNSPEC kind).1
          (agent_addnetaddr env sc 0 t .AF_UNSPEC kind).2 m := by
  have ht0 : ∀ c ∈ t, c ≠ '\x00' := fun c hc => (ht c hc).2.2
  have htr : ∀ c ∈ t, c ∉ " \t".toList := by
    intro c hc
    have := ht c hc
    simp [this.1, this.2.1]
  have hlen : strcspn (cstrAt (t ++ d :: m)) " \t".toList = t.length := by
    by_cases hd0 : d = '\x00'
    · subst hd0
      rw [cstrAt_append_nul m ht0, strcspn_all htr]
    · rw [cstrAt_append_cons d m ht0 hd0]
      exact strcspn_append_cons htr (by rcases hd with h | h | h <;> simp [h] at hd0 ⊢)
  have htake : (cstrAt (t ++ d :: m)).take t.length = t := by
    by_cases hd0 : d = '\x00'
    · subst hd0
      rw [cstrAt_append_nul m ht0, List.take_length]
    · rw [cstrAt_append_cons d m ht0 hd0, List.take_left']
      rfl
  have hdrop : (t ++ d :: m).drop (t.length + 1) = m := by
    rw [← List.drop_drop, List.drop_left]; rfl
  have hhead : ∃ c r, t ++ d :: m = c :: r ∧ c ≠ '\x00' := by
    cases t with
    | nil =>
      refine ⟨d, m, rfl, ?_⟩
      rcases hne with h | h
      · exact absurd rfl h
      · exact h
    | cons c r => exact ⟨c, r ++ d :: m, rfl, ht0 c (by simp)⟩
  obtain ⟨c, r, hcr, hc⟩ := hhead
  rw [hcr] at hlen htake hdrop ⊢
  simp only [tokenLoop, hc, if_false, hlen, htake, hdrop]

/-- The token loop does not depend on its fuel once the fuel exceeds the length of the
buffer: fuel `mem.length + 1` is never used up. -/
theorem tokenLoop_fuel (env : Env) (kind : net_type) :
    ∀ (fuel fuel' : Nat) (ret : Int) (sc : system_config) (mem : List Char),
      mem.length < fuel → mem.length < fuel' →
      tokenLoop env kind fuel ret sc mem = tokenLoop env kind fuel' ret sc mem := by
  intro fuel
  induction fuel with
  | zero => intro fuel' ret sc mem h; omega
  | succ f ih =>
    intro fuel' ret sc mem h h'
    obtain ⟨f', rfl⟩ : ∃ f', fuel' = f' + 1 := ⟨fuel' - 1, by omega⟩
    cases mem with
    | nil => simp [tokenLoop]
    | cons c r =>
      simp only [tokenLoop]
      by_cases hc : c = '\x00'
      · simp [hc]
      · simp only [hc, if_false]
        split_ifs
        · rfl
        · apply ih
          · simp only [List.length_drop, List.length_cons] at h ⊢
            omega
          · simp only [List.length_drop, List.length_cons] at h' ⊢
            omega

theorem agent_addnetaddr_ok (env : Env) (sc : system_config) (unit : Nat) (value : CStr)
    (af : AddrFamily) (kind : net_type)
    (h : env.addnetaddr_ret sc ⟨unit, af, kind, value⟩ = 0) :
    agent_addnetaddr env sc unit value af kind
      = (0, { sc with sc_netaddr := sc.sc_netaddr ++ [⟨unit, af, kind, value⟩] }) := by
  simp [agent_addnetaddr, h]

/-- The token loop on a value made of good tokens joined by single spaces or tabs
registers every token, in order, and stops at the terminator behind the value. -/
theorem tokenLoop_join (env : Env) (kind : net_type) :
    ∀ (rest : List (Char × CStr)) (t0 : CStr) (fuel : Nat) (ret : Int) (sc : system_config)
      (tail : List Char),
      (∀ t ∈ t0 :: rest.map Prod.snd, GoodToken t) →
      (∀ p ∈ rest, p.1 = ' ' ∨ p.1 = '\t') →
      (∀ sc' t, t ∈ t0 :: rest.map Prod.snd →
        env.addnetaddr_ret sc' ⟨0, .AF_UNSPEC, kind, t⟩ = 0) →
      rest.length + 2 ≤ fuel →
      tokenLoop env kind fuel ret sc (joinTokens t0 rest ++ '\x00' :: '\x00' :: tail)
        = some (0, { sc with sc_netaddr := sc.sc_netaddr ++
            (t0 :: rest.map Prod.snd).map (fun t => ⟨0, .AF_UNSPEC, kind, t⟩) }) := by
  intro rest
  induction rest with
  | nil =>
    intro t0 fuel ret sc tail hgood _ hreg hfuel
    obtain ⟨f, rfl⟩ : ∃ f, fuel = f + 1 + 1 := ⟨fuel - 2, by simp at hfuel; omega⟩
    have hg := hgood t0 (by simp)
    have ht : ∀ c ∈ t0, c ≠ ' ' ∧ c ≠ '\t' ∧ c ≠ '\x00' :=
      fun c hc => ⟨(hg.2 c hc).1, (hg.2 c hc).2.1, (hg.2 c hc).2.2.2.2.2⟩
    have hr := agent_addnetaddr_ok env sc 0 t0 .AF_UNSPEC kind (hreg sc t0 (by simp))
    simp only [joinTokens]
    rw [tokenLoop_iter env kind (f + 1) ret sc _ ht (Or.inr (Or.inr rfl)) (Or.inl hg.1), hr]
    simp [tokenLoop]
  | cons p rest ih =>
    intro t0 fuel ret sc tail hgood hsep hreg hfuel
    obtain ⟨s, t1⟩ := p
    obtain ⟨f, rfl⟩ : ∃ f, fuel = f + 1 := ⟨fuel - 1, by simp at hfuel; omega⟩
    have hg := hgood t0 (by simp)
    have ht : ∀ c ∈ t0, c ≠ ' ' ∧ c ≠ '\t' ∧ c ≠ '\x00' :=
      fun c hc => ⟨(hg.2 c hc).1, (hg.2 c hc).2.1, (hg.2 c hc).2.2.2.2.2⟩
    have hs : s = ' ' ∨ s = '\t' ∨ s = '\x00' := by
      rcases hsep (s, t1) (by simp) with h | h
      · exact Or.inl h
      · exact Or.inr (Or.inl h)
    have hr := agent_addnetaddr_ok env sc 0 t0 .AF_UNSPEC kind (hreg sc t0 (by simp))
    have hih := ih t1 f 0
      { sc with sc_netaddr := sc.sc_netaddr ++ [⟨0, .AF_UNSPEC, kind, t0⟩] } tail
      (fun t h => hgood t (by simp at h ⊢; exact Or.inr h))
      (fun p h => hsep p (by simp [h]))
      (fun sc' t h => hreg sc' t (by simp at h ⊢; exact Or.inr h))
      (by simp at hfuel ⊢; omega)
    simp only [joinTokens, List.append_assoc, List.cons_append]
    rw [tokenLoop_iter env kind f ret sc _ ht hs (Or.inl hg.1), hr]
    simp only [ne_eq, not_true_eq_false, if_false]
    rw [hih]
    simp

theorem joinTokens_length (t0 : CStr) (rest : List (Char × CStr)) :
    rest.length ≤ (joinTokens t0 rest).length := by
  induction rest generalizing t0 with
  | nil => simp
  | cons p rest ih =>
    obtain ⟨s, t1⟩ := p
    have := ih t1
    simp [joinTokens]
    omega

theorem joinTokens_mem {t0 : CStr} {rest : List (Char × CStr)} {c : Char}
    (h : c ∈ joinTokens t0 rest) :
    (∃ t ∈ t0 :: rest.map Prod.snd, c ∈ t) ∨ ∃ p ∈ rest, c = p.1 := by
  induction rest generalizing t0 with
  | nil => exact Or.inl ⟨t0, by simp, by simpa [joinTokens] using h⟩
  | cons p rest ih =>
    obtain ⟨s, t1⟩ := p
    simp only [joinTokens, List.mem_append, List.mem_cons] at h
    rcases h with h | h | h
    · exact Or.inl ⟨t0, by simp, h⟩
    · exact Or.inr ⟨(s, t1), by simp, h⟩
    · rcases ih h with ⟨t, ht, hc⟩ | ⟨p, hp, hc⟩
      · exact Or.inl ⟨t, by simp at ht ⊢; exact Or.inr ht, hc⟩
      · exact Or.inr ⟨p, by simp [hp], hc⟩

theorem joinTokens_ne_nil {t0 : CStr} (rest : List (Char × CStr)) (h : t0 ≠ []) :
    joinTokens t0 rest ≠ [] := by
  cases rest with
  | nil => simpa [joinTokens] using h
  | cons p rest =>
    obtain ⟨s, t1⟩ := p
    simp [joinTokens]

theorem take_strcspn_hash (line : CStr) :
    line.take (strcspn line "#".toList) = stripComment line := by
  unfold strcspn stripComment
  induction line with
  | nil => rfl
  | cons x xs ih =>
    by_cases hx : x = '#'
    · simp [List.takeWhile, hx]
    · simpa [List.takeWhile, hx] using ih

/-- A malformed line is skipped by the splitting and dequoting step. -/
theorem splitLine_malformed {line : CStr} (h : Malformed line) : splitLine line = none := by
  unfold splitLine
  simp only [take_strcspn_hash]
  rcases h with h | ⟨k, hk, hs⟩ | ⟨k, c, r, hk, hs, hc1, hc2⟩ | ⟨k, q, r, hk, hs, hq, hr⟩ |
    ⟨k, q, r, hk, hs, hq, hr⟩
  · rw [strchr_none h]
  · rw [hs, strchr_append_cons hk]
    simp
  · rw [hs, strchr_append_cons hk]
    simp [strspn, List.takeWhile, hc1, hc2]
  · rw [hs, strchr_append_cons hk]
    have h0 : strrchr (q :: r) q = some 0 := by simp [strrchr, strrchr_none hr]
    simp [h0]
  · rw [hs, strchr_append_cons hk]
    have h1 : strrchr (q :: q :: r) q = some 1 := by
      simp [strrchr, strrchr_none hr]
    simp [h1]

theorem toNat_sub_ne_zero {a b : Char} (h : a ≠ b) : (a.toNat : Int) - (b.toNat : Int) ≠ 0 := by
  intro h0
  apply h
  have h1 : a.toNat = b.toNat := by omega
  rw [← Char.ofNat_toNat a, ← Char.ofNat_toNat b, h1]

theorem strcasecmp_cons_cons {a b : Char} {as bs : CStr} :
    strcasecmp (a :: as) (b :: bs) = 0 ↔ tolower a = tolower b ∧ strcasecmp as bs = 0 := by
  rw [strcasecmp]
  by_cases h : tolower a = tolower b
  · simp [h]
  · simp [h, toNat_sub_ne_zero h]

theorem strcasecmp_cons_nil {a : Char} {as : CStr} (h : (tolower a).toNat ≠ 0) :
    strcasecmp (a :: as) [] ≠ 0 := by
  rw [strcasecmp]
  omega

/-- Two names that differ in their first byte, case ignored, are not both equal to `k`. -/
theorem strcasecmp_head_excl {a b : Char} {as bs k : CStr} (h : strcasecmp (a :: as) k = 0)
    (ha : (tolower a).toNat ≠ 0) (hne : tolower b ≠ tolower a) :
    strcasecmp (b :: bs) k ≠ 0 := by
  cases k with
  | nil => exact absurd h (strcasecmp_cons_nil ha)
  | cons c r =>
    intro h2
    exact hne ((strcasecmp_cons_cons.1 h2).1.trans (strcasecmp_cons_cons.1 h).1.symm)

theorem strcasecmp_mac_mask {k : CStr} (h : strcasecmp "MAC".toList k = 0) :
    strcasecmp "MASK".toList k ≠ 0 := by
  have e1 : "MAC".toList = 'M' :: 'A' :: 'C' :: [] := rfl
  have e2 : "MASK".toList = 'M' :: 'A' :: 'S' :: 'K' :: [] := rfl
  rw [e1] at h
  rw [e2]
  cases k with
  | nil => exact absurd h (strcasecmp_cons_nil (by decide))
  | cons c1 k1 =>
    obtain ⟨h1, h⟩ := strcasecmp_cons_cons.1 h
    cases k1 with
    | nil => exact absurd h (strcasecmp_cons_nil (by decide))
    | cons c2 k2 =>
      obtain ⟨h2, h⟩ := strcasecmp_cons_cons.1 h
      intro hm
      have hm := (strcasecmp_cons_cons.1 (strcasecmp_cons_cons.1 hm).2).2
      exact strcasecmp_head_excl h (by decide) (by decide) hm

theorem fnmatch_eth_head {k : CStr} (h : fnmatch "ETH*_*".toList k 0 ≠ FNM_NOMATCH) :
    ∃ r, k = 'E' :: 'T' :: 'H' :: r := by
  have hg : fnmatch_glob ['E', 'T', 'H', '*', '_', '*'] k = true := by
    by_contra hc
    apply h
    unfold fnmatch
    exact if_neg hc
  rcases k with _ | ⟨c1, _ | ⟨c2, _ | ⟨c3, r⟩⟩⟩
  · simp [fnmatch_glob] at hg
  · simp [fnmatch_glob] at hg
  · simp [fnmatch_glob] at hg
  · simp only [fnmatch_glob] at hg
    simp at hg
    obtain ⟨h1, h2, h3, -⟩ := hg
    exact ⟨r, by rw [← h1, ← h2, ← h3]⟩

/-- The `HOSTNAME` branch of the dispatch. -/
theorem dispatch_hostname (env : Env) (st : State) {k : CStr} (v : CStr) (behind : List Char)
    (h : strcasecmp "HOSTNAME".toList k = 0) :
    dispatch env st k v behind = .next { st with hname := some v } := by
  have e : "HOSTNAME".toList = 'H' :: "OSTNAME".toList := rfl
  have h1 : strcasecmp "NETWORK".toList k ≠ 0 := by
    rw [e] at h
    exact @strcasecmp_head_excl 'H' 'N' "OSTNAME".toList "ETWORK".toList k h (by decide)
      (by decide)
  have h2 : ¬ fnmatch "ETH*_*".toList k 0 ≠ FNM_NOMATCH := by
    intro hf
    obtain ⟨r, rfl⟩ := fnmatch_eth_head hf
    rw [e] at h
    exact absurd (strcasecmp_cons_cons.1 h).1 (by decide)
  unfold dispatch
  rw [if_neg h1, if_neg h2, if_pos h]

/-- The `MAC` branch of the subkey dispatch. -/
theorem subKey_mac (env : Env) (st : State) (unit : Nat) {k : CStr} (v : CStr)
    (behind : List Char) (h : strcasecmp "MAC".toList k = 0) :
    subKey env st unit k v behind
      = checkRet (if unit = 0 ∧ st.hname = none then some ("vm".toList ++ v.filter isalnum)
          else st.hname) (agent_addnetaddr env st.sc unit v .AF_UNSPEC .NET_MAC) := by
  have e : "MAC".toList = 'M' :: "AC".toList := rfl
  have hx : ∀ (b : Char) (bs : CStr), tolower b ≠ tolower 'M' → strcasecmp (b :: bs) k ≠ 0 :=
    fun b bs hb => strcasecmp_head_excl (e ▸ h) (by decide) hb
  have h1 : strcasecmp "DNS".toList k ≠ 0 := hx 'D' "NS".toList (by decide)
  have h2 : strcasecmp "SEARCH_DOMAIN".toList k ≠ 0 := hx 'S' "EARCH_DOMAIN".toList (by decide)
  have h3 : strcasecmp "IP".toList k ≠ 0 := hx 'I' "P".toList (by decide)
  have h4 : strcasecmp "MASK".toList k ≠ 0 := strcasecmp_mac_mask h
  have h5 : strcasecmp "GATEWAY".toList k ≠ 0 := hx 'G' "ATEWAY".toList (by decide)
  have h6 : strcasecmp "IP6".toList k ≠ 0 := hx 'I' "P6".toList (by decide)
  have h7 : strcasecmp "GATEWAY6".toList k ≠ 0 := hx 'G' "ATEWAY6".toList (by decide)
  have h8 : strcasecmp "PREFIX_LENGTH".toList k ≠ 0 := hx 'P' "REFIX_LENGTH".toList (by decide)
  unfold subKey
  simp only [if_neg h1, if_neg h2, if_neg h3, if_neg h4, if_neg h5, if_neg h6, if_neg h7,
    if_neg h8, if_pos h]

/-- The host name staged by `checkRet` is the one it is given. -/
theorem checkRet_hname (hname : Option CStr) (r : Int × system_config) :
    ∃ st', (checkRet hname r = .next st' ∨ checkRet hname r = .done st') ∧ st'.hname = hname := by
  unfold checkRet
  by_cases h : r.1 ≠ 0
  · exact ⟨_, Or.inr (if_pos h), rfl⟩
  · exact ⟨_, Or.inl (if_neg h), rfl⟩

/-- Outside the `MAC` branch the subkey dispatch leaves the staged host name alone. -/
theorem subKey_hname (env : Env) (st st' : State) (unit : Nat) {k : CStr} (v : CStr)
    (behind : List Char) (h : strcasecmp "MAC".toList k ≠ 0)
    (hs : subKey env st unit k v behind = .next st' ∨ subKey env st unit k v behind = .done st') :
    st'.hname = st.hname := by
  have hc : ∀ r, (checkRet st.hname r = .next st' ∨ checkRet st.hname r = .done st') →
      st'.hname = st.hname := by
    intro r hr
    obtain ⟨s, hs1, hs2⟩ := checkRet_hname st.hname r
    rcases hr with hr | hr <;> rcases hs1 with hs1 | hs1 <;> rw [hr] at hs1 <;>
      first
        | (injection hs1 with e; rw [e]; exact hs2)
        | exact Flow.noConfusion hs1
  unfold subKey at hs
  simp only [if_neg h] at hs
  split_ifs at hs
  · cases ht : tokenLoop env .NET_DNS
        ((v ++ '\x00' :: behind).length + 1) st.ret st.sc (v ++ '\x00' :: behind) with
    | none => rw [ht] at hs; simp at hs
    | some r => rw [ht] at hs; exact hc r hs
  · cases ht : tokenLoop env .NET_DNS_DOMAIN
        ((v ++ '\x00' :: behind).length + 1) st.ret st.sc (v ++ '\x00' :: behind) with
    | none => rw [ht] at hs; simp at hs
    | some r => rw [ht] at hs; exact hc r hs
  all_goals exact hc _ hs

theorem checkRet_next_hname {hname : Option CStr} {r : Int × system_config} {st' : State}
    (h : checkRet hname r = .next st') : st'.hname = hname := by
  unfold checkRet at h
  split_ifs at h
  injection h with e
  rw [← e]

/-- What a line that is passed without `goto done` does to the staged host name. -/
theorem step_stage (env : Env) (st st' : State) (l : Line) (h : step env st l = .next st') :
    st'.hname = stage st.hname l := by
  unfold step at h
  unfold stage hostnameOf macOf
  by_cases hl : l.lineno = 1
  · simp only [hl, if_true] at h ⊢
    split_ifs at h
    injection h with e
    rw [← e]
  · simp only [hl, if_false] at h ⊢
    cases hsp : splitLine l.text with
    | none =>
      rw [hsp] at h
      injection h with e
      rw [← e]
    | some kvb =>
      obtain ⟨k, v, b⟩ := kvb
      rw [hsp] at h
      simp only at h ⊢
      by_cases hh : strcasecmp "HOSTNAME".toList k = 0
      · rw [dispatch_hostname env st v b hh] at h
        injection h with e
        rw [← e, if_pos hh]
      · rw [if_neg hh]
        by_cases hf : fnmatch "ETH*_*".toList k 0 ≠ FNM_NOMATCH
        · obtain ⟨r, rfl⟩ := fnmatch_eth_head hf
          rw [dispatch_eth, if_pos hf] at h
          unfold ethKey at h
          by_cases hu : (strtonum (unitText ('E' :: 'T' :: 'H' :: r)) 0 UINT16_MAX).2 = none
          · simp only [hu, Option.isSome_none, Bool.false_eq_true, if_false] at h
            by_cases hm : strcasecmp "MAC".toList (subkeyText ('E' :: 'T' :: 'H' :: r)) = 0
            · rw [subKey_mac env st _ v b hm] at h
              have hc : fnmatch "ETH*_*".toList ('E' :: 'T' :: 'H' :: r) 0 ≠ FNM_NOMATCH ∧
                  (strtonum (unitText ('E' :: 'T' :: 'H' :: r)) 0 UINT16_MAX).2 = none ∧
                  strcasecmp "MAC".toList (subkeyText ('E' :: 'T' :: 'H' :: r)) = 0 :=
                ⟨hf, hu, hm⟩
              rw [checkRet_next_hname h]
              simp only [if_pos hc]
            · have hc : ¬ (fnmatch "ETH*_*".toList ('E' :: 'T' :: 'H' :: r) 0 ≠ FNM_NOMATCH ∧
                  (strtonum (unitText ('E' :: 'T' :: 'H' :: r)) 0 UINT16_MAX).2 = none ∧
                  strcasecmp "MAC".toList (subkeyText ('E' :: 'T' :: 'H' :: r)) = 0) :=
                fun hc => hm hc.2.2
              rw [subKey_hname env st st' _ v b hm (Or.inl h)]
              simp only [if_neg hc]
          · have : (strtonum (unitText ('E' :: 'T' :: 'H' :: r)) 0 UINT16_MAX).2.isSome
                = true := by
              cases hx : (strtonum (unitText ('E' :: 'T' :: 'H' :: r)) 0 UINT16_MAX).2 with
              | none => exact absurd hx hu
              | some e => rfl
            rw [if_pos this] at h
            exact Flow.noConfusion h
        · rw [if_neg (fun hc => hf hc.1)]
          unfold dispatch at h
          rw [if_neg hf, if_neg hh] at h
          split_ifs at h <;> (injection h with e; rw [← e])

/-- The host name staged when the loop has consumed every line. -/
theorem parseLoop_stage (env : Env) :
    ∀ (lines : List Line) (st st' : State), parseLoop env st lines = .next st' →
      st'.hname = lines.foldl stage st.hname := by
  intro lines
  induction lines with
  | nil =>
    intro st st' h
    simp only [parseLoop] at h
    injection h with e
    rw [← e]; rfl
  | cons l ls ih =>
    intro st st' h
    simp only [parseLoop] at h
    cases hs : step env st l with
    | next s1 =>
      rw [hs] at h
      rw [ih s1 st' h, step_stage env st s1 l hs]
      rfl
    | done s1 => rw [hs] at h; exact Flow.noConfusion h
    | overrun => rw [hs] at h; exact Flow.noConfusion h

theorem foldl_stage_some (ls : List Line) (x : CStr)
    (h : ∀ l ∈ ls, hostnameOf l = none) : ls.foldl stage (some x) = some x := by
  induction ls with
  | nil => rfl
  | cons l ls ih =>
    have h1 : stage (some x) l = some x := by
      unfold stage
      rw [h l (by simp)]
      cases macOf l with
      | none => rfl
      | some p => simp
    rw [List.foldl_cons, h1]
    exact ih (fun l hl => h l (by simp [hl]))

/-- With a `HOSTNAME` line in the file, the staged host name is the value of the last one. -/
theorem foldl_stage_last (ls : List Line) (h0 : Option CStr) (x : CStr)
    (h : (ls.filterMap hostnameOf).getLast? = some x) : ls.foldl stage h0 = some x := by
  induction ls using List.reverseRecOn with
  | nil => simp at h
  | append_singleton ls l ih =>
    rw [List.foldl_append, List.foldl_cons, List.foldl_nil]
    rw [List.filterMap_append] at h
    cases hl : hostnameOf l with
    | some y =>
      have e : List.filterMap hostnameOf [l] = [y] := by simp [List.filterMap, hl]
      rw [e, List.getLast?_concat] at h
      unfold stage
      rw [hl, h]
    | none =>
      have e : List.filterMap hostnameOf [l] = [] := by simp [List.filterMap, hl]
      rw [e, List.append_nil] at h
      rw [ih h]
      exact foldl_stage_some [l] x (by simp [hl])

/-- Without a `HOSTNAME` line, the staged host name comes from the first `MAC` line of
unit 0. -/
theorem foldl_stage_mac (ls : List Line) (v : CStr)
    (hno : ∀ l ∈ ls, hostnameOf l = none)
    (h : (ls.filterMap mac0Of).head? = some v) :
    ls.foldl stage none = some ("vm".toList ++ v.filter isalnum) := by
  induction ls with
  | nil => simp at h
  | cons l ls ih =>
    rw [List.foldl_cons]
    have hnl := hno l (by simp)
    cases hm : mac0Of l with
    | some w =>
      simp only [List.filterMap_cons, hm, List.head?_cons, Option.some.injEq] at h
      subst h
      have hs : stage none l = some ("vm".toList ++ w.filter isalnum) := by
        unfold mac0Of at hm
        unfold stage
        rw [hnl]
        cases hmac : macOf l with
        | none => rw [hmac] at hm; simp at hm
        | some p =>
          obtain ⟨u, v⟩ := p
          rw [hmac] at hm
          simp only at hm ⊢
          split_ifs at hm with hu
          injection hm with e
          simp [hu, e]
      rw [hs]
      exact foldl_stage_some ls _ (fun l hl => hno l (by simp [hl]))
    | none =>
      simp only [List.filterMap_cons, hm] at h
      have hs : stage none l = none := by
        unfold mac0Of at hm
        unfold stage
        rw [hnl]
        cases hmac : macOf l with
        | none => rfl
        | some p =>
          obtain ⟨u, v⟩ := p
          rw [hmac] at hm
          simp only at hm ⊢
          split_ifs at hm with hu
          simp [hu]
      rw [hs]
      exact ih (fun l hl => hno l (by simp [hl])) h

theorem strchr_take {s : CStr} {c : Char} {i : Nat} (h : strchr s c = some i) :
    s.take i = s.takeWhile (fun x => decide (x ≠ c)) := by
  induction s generalizing i with
  | nil => simp [strchr] at h
  | cons x xs ih =>
    rw [strchr] at h
    by_cases hx : x = c
    · rw [if_pos hx] at h
      injection h with e
      subst e
      simp [List.takeWhile, hx]
    · rw [if_neg hx] at h
      cases hxs : strchr xs c with
      | none => rw [hxs] at h; simp at h
      | some j =>
        rw [hxs] at h
        simp only [Option.map_some'] at h
        injection h with e
        subst e
        simp [List.takeWhile, hx, ih hxs]

/-- The key that the splitting step hands out is the text in front of the first `=`. -/
theorem splitLine_key {line k v : CStr} {b : List Char} (h : splitLine line = some (k, v, b)) :
    k = keyOf line := by
  unfold splitLine at h
  simp only [take_strcspn_hash] at h
  cases hs : strchr (stripComment line) '=' with
  | none => rw [hs] at h; simp at h
  | some i =>
    rw [hs] at h
    simp only at h
    by_cases h1 : List.drop (i + 1) (stripComment line) = []
    · rw [if_pos h1] at h; simp at h
    · rw [if_neg h1] at h
      by_cases h2 : strspn (List.drop (i + 1) (stripComment line)) "\"'".toList = 0
      · rw [if_pos h2] at h; simp at h
      · rw [if_neg h2] at h
        cases h3 : strrchr (List.drop (i + 1) (stripComment line))
            ((List.drop (i + 1) (stripComment line)).headD '\x00') with
        | none => rw [h3] at h; simp at h
        | some p =>
          rw [h3] at h
          simp only at h
          by_cases h4 : p = 0
          · rw [if_pos h4] at h; simp at h
          · rw [if_neg h4] at h
            by_cases h5 : List.drop 1 (List.take p (List.drop (i + 1) (stripComment line))) = []
            · rw [if_pos h5] at h; simp at h
            · rw [if_neg h5] at h
              simp only [Option.some.injEq, Prod.mk.injEq] at h
              rw [← h.1]
              exact strchr_take hs

theorem parseLoop_append (env : Env) (a b : List Line) (st : State) :
    parseLoop env st (a ++ b)
      = match parseLoop env st a with
        | .next st' => parseLoop env st' b
        | .done st' => .done st'
        | .overrun => .overrun := by
  induction a generalizing st with
  | nil => rfl
  | cons l ls ih =>
    simp only [List.cons_append, parseLoop]
    cases step env st l with
    | next s => exact ih s
    | done s => rfl
    | overrun => rfl

/-- A first line numbered 1 that differs from the header ends the call at once: the result
is the non-zero value of `strcmp` and only `sc_stack` has been written. -/
theorem header_mismatch (env : Env) (sc : system_config) (l : Line) (ls : List Line)
    (hctx : env.context = some (l :: ls)) (hl : l.lineno = 1)
    (hne : strcmp l.text HEADER ≠ 0) :
    opennebula env sc
      = some (strcmp l.text HEADER, { sc with sc_stack := some "opennebula".toList }) := by
  unfold opennebula
  rw [hctx]
  simp only [parseLoop, step, hl, if_true, if_pos hne, initState]

theorem Grows.refl (sc : system_config) : Grows sc sc :=
  ⟨rfl, rfl, rfl, [], by simp, by simp⟩

theorem Grows.trans {a b c : system_config} (h1 : Grows a b) (h2 : Grows b c) : Grows a c := by
  obtain ⟨s1, n1, i1, e1, he1, hp1⟩ := h1
  obtain ⟨s2, n2, i2, e2, he2, hp2⟩ := h2
  refine ⟨s2.trans s1, n2.trans n1, i2.trans i1, e1 ++ e2, ?_, ?_⟩
  · rw [he2, he1, List.append_assoc]
  · intro x hx
    rcases List.mem_append.1 hx with h | h
    · exact hp1 x h
    · exact hp2 x h

theorem Grows.initial {a b : system_config} (h : Grows a b) : a.sc_netaddr <+: b.sc_netaddr := by
  obtain ⟨_, _, _, e, he, _⟩ := h
  exact ⟨e, he.symm⟩

/-- A registration appends one entry or nothing. -/
theorem agent_addnetaddr_grows (env : Env) (sc : system_config) (unit : Nat) (value : CStr)
    (af : AddrFamily) (kind : net_type) (h : DnsUnitZero ⟨unit, af, kind, value⟩) :
    Grows sc (agent_addnetaddr env sc unit value af kind).2 := by
  unfold agent_addnetaddr
  simp only
  split_ifs
  · exact ⟨rfl, rfl, rfl, [⟨unit, af, kind, value⟩], rfl, by
      intro a ha
      rw [List.mem_singleton.1 ha]
      exact h⟩
  · exact Grows.refl sc

/-- The result code of a registration is 0 exactly when the oracle says 0. -/
theorem agent_addnetaddr_ret (env : Env) (sc : system_config) (unit : Nat) (value : CStr)
    (af : AddrFamily) (kind : net_type) :
    (agent_addnetaddr env sc unit value af kind).1
      = env.addnetaddr_ret sc ⟨unit, af, kind, value⟩ := by
  unfold agent_addnetaddr
  simp only
  split_ifs with h
  · exact h.symm
  · rfl

theorem agent_addnetaddr_fail (env : Env) (sc : system_config) (unit : Nat) (value : CStr)
    (af : AddrFamily) (kind : net_type)
    (h : env.addnetaddr_ret sc ⟨unit, af, kind, value⟩ ≠ 0) :
    agent_addnetaddr env sc unit value af kind
      = (env.addnetaddr_ret sc ⟨unit, af, kind, value⟩, sc) := by
  unfold agent_addnetaddr
  simp only
  rw [if_neg h]

/-- The token loop appends entries of unit 0 only. -/
theorem tokenLoop_grows (env : Env) (kind : net_type) :
    ∀ (fuel : Nat) (ret : Int) (sc : system_config) (mem : List Char)
      (r : Int × system_config),
      tokenLoop env kind fuel ret sc mem = some r → Grows sc r.2 := by
  intro fuel
  induction fuel with
  | zero => intro ret sc mem r h; simp [tokenLoop] at h
  | succ f ih =>
    intro ret sc mem r h
    cases mem with
    | nil => simp [tokenLoop] at h
    | cons c m =>
      simp only [tokenLoop] at h
      by_cases hc : c = '\x00'
      · rw [if_pos hc] at h
        injection h with e
        rw [← e]
        exact Grows.refl sc
      · rw [if_neg hc] at h
        have hg := agent_addnetaddr_grows env sc 0
          ((cstrAt (c :: m)).take (strcspn (cstrAt (c :: m)) " \t".toList)) .AF_UNSPEC kind
          (fun _ => rfl)
        split_ifs at h with h0
        · injection h with e
          rw [← e]
          exact hg
        · exact Grows.trans hg (ih _ _ _ _ h)

/-- The token loop ends with `ret == 0` only when every registration was accepted; a
non-zero result is the code of a rejected registration. -/
theorem tokenLoop_ret (env : Env) (kind : net_type) :
    ∀ (fuel : Nat) (ret : Int) (sc : system_config) (mem : List Char)
      (r : Int × system_config),
      tokenLoop env kind fuel ret sc mem = some r → r.1 ≠ 0 → r.1 = ret ∨
        ∃ a, env.addnetaddr_ret r.2 a = r.1 := by
  intro fuel
  induction fuel with
  | zero => intro ret sc mem r h; simp [tokenLoop] at h
  | succ f ih =>
    intro ret sc mem r h hr
    cases mem with
    | nil => simp [tokenLoop] at h
    | cons c m =>
      simp only [tokenLoop] at h
      by_cases hc : c = '\x00'
      · rw [if_pos hc] at h
        injection h with e
        rw [← e]
        exact Or.inl rfl
      · rw [if_neg hc] at h
        split_ifs at h with h0
        · injection h with e
          rw [← e]
          right
          rw [agent_addnetaddr_ret] at h0 ⊢
          rw [agent_addnetaddr_fail env sc 0 _ .AF_UNSPEC kind h0]
          exact ⟨_, rfl⟩
        · rcases ih _ _ _ _ h hr with h1 | h1
          · exact absurd (h1.trans (not_not.1 h0)) hr
          · exact Or.inr h1

theorem checkRet_reaches {hname : Option CStr} {r : Int × system_config} {st' : State}
    (h : Reaches (checkRet hname r) st') : st'.sc = r.2 ∧ st'.ret = r.1 ∧ st'.hname = hname := by
  unfold checkRet at h
  split_ifs at h
  · rcases h with h | h
    · exact Flow.noConfusion h
    · injection h with e
      rw [← e]
      exact ⟨rfl, rfl, rfl⟩
  · rcases h with h | h
    · injection h with e
      rw [← e]
      exact ⟨rfl, rfl, rfl⟩
    · exact Flow.noConfusion h

/-- The shapes of the subkey dispatch: a token loop for one of the two list kinds, one
registration of another kind, or nothing at all. -/
theorem subKey_cases (env : Env) (st : State) (unit : Nat) (k v : CStr) (behind : List Char) :
    (∃ kind, (kind = net_type.NET_DNS ∨ kind = net_type.NET_DNS_DOMAIN) ∧
      subKey env st unit k v behind
        = match tokenLoop env kind ((v ++ '\x00' :: behind).length + 1) st.ret st.sc
            (v ++ '\x00' :: behind) with
          | none => Flow.overrun
          | some r => checkRet st.hname r) ∨
    (∃ hname af kind, kind ≠ net_type.NET_DNS ∧ kind ≠ net_type.NET_DNS_DOMAIN ∧
      subKey env st unit k v behind
        = checkRet hname (agent_addnetaddr env st.sc unit v af kind)) ∨
    subKey env st unit k v behind = checkRet st.hname (0, st.sc) := by
  unfold subKey
  by_cases h0 : strcasecmp "DNS".toList k = 0
  · rw [if_pos h0]
    exact Or.inl ⟨.NET_DNS, Or.inl rfl, rfl⟩
  rw [if_neg h0]
  by_cases h1 : strcasecmp "SEARCH_DOMAIN".toList k = 0
  · rw [if_pos h1]
    exact Or.inl ⟨.NET_DNS_DOMAIN, Or.inr rfl, rfl⟩
  rw [if_neg h1]
  by_cases h2 : strcasecmp "IP".toList k = 0
  · rw [if_pos h2]
    exact Or.inr (Or.inl ⟨_, _, _, by decide, by decide, rfl⟩)
  rw [if_neg h2]
  by_cases h3 : strcasecmp "MASK".toList k = 0
  · rw [if_pos h3]
    exact Or.inr (Or.inl ⟨_, _, _, by decide, by decide, rfl⟩)
  rw [if_neg h3]
  by_cases h4 : strcasecmp "GATEWAY".toList k = 0
  · rw [if_pos h4]
    exact Or.inr (Or.inl ⟨_, _, _, by decide, by decide, rfl⟩)
  rw [if_neg h4]
  by_cases h5 : strcasecmp "IP6".toList k = 0
  · rw [if_pos h5]
    exact Or.inr (Or.inl ⟨_, _, _, by decide, by decide, rfl⟩)
  rw [if_neg h5]
  by_cases h6 : strcasecmp "GATEWAY6".toList k = 0
  · rw [if_pos h6]
    exact Or.inr (Or.inl ⟨_, _, _, by decide, by decide, rfl⟩)
  rw [if_neg h6]
  by_cases h7 : strcasecmp "PREFIX_LENGTH".toList k = 0
  · rw [if_pos h7]
    exact Or.inr (Or.inl ⟨_, _, _, by decide, by decide, rfl⟩)
  rw [if_neg h7]
  by_cases h8 : strcasecmp "MAC".toList k = 0
  · rw [if_pos h8]
    exact Or.inr (Or.inl ⟨_, _, _, by decide, by decide, rfl⟩)
  rw [if_neg h8]
  by_cases h9 : strcasecmp "MTU".toList k = 0
  · rw [if_pos h9]
    exact Or.inr (Or.inl ⟨_, _, _, by decide, by decide, rfl⟩)
  rw [if_neg h9]
  exact Or.inr (Or.inr rfl)

/-- The subkey dispatch only appends addresses. -/
theorem subKey_grows (env : Env) (st st' : State) (unit : Nat) (k v : CStr)
    (behind : List Char) (h : Reaches (subKey env st unit k v behind) st') :
    Grows st.sc st'.sc := by
  rcases subKey_cases env st unit k v behind with ⟨kind, _, e⟩ | ⟨hname, af, kind, h1, h2, e⟩ | e
  · rw [e] at h
    cases ho : tokenLoop env kind ((v ++ '\x00' :: behind).length + 1) st.ret st.sc
        (v ++ '\x00' :: behind) with
    | none =>
      rw [ho] at h
      rcases h with h | h <;> exact Flow.noConfusion h
    | some r =>
      rw [ho] at h
      rw [(checkRet_reaches h).1]
      exact tokenLoop_grows env kind _ _ _ _ r ho
  · rw [e] at h
    rw [(checkRet_reaches h).1]
    exact agent_addnetaddr_grows env st.sc unit v af kind (by
      intro hk
      rcases hk with hk | hk
      · exact absurd hk h1
      · exact absurd hk h2)
  · rw [e] at h
    rw [(checkRet_reaches h).1]
    exact Grows.refl st.sc

theorem ethKey_grows (env : Env) (st st' : State) (k v : CStr) (behind : List Char)
    (h : Reaches (ethKey env st k v behind) st') : Grows st.sc st'.sc := by
  unfold ethKey at h
  by_cases hu : (strtonum (unitText k) 0 UINT16_MAX).2.isSome = true
  · simp only [hu, if_true] at h
    rcases h with h | h
    · exact Flow.noConfusion h
    · injection h with e
      rw [← e]
      exact Grows.refl st.sc
  · simp only [hu, if_false] at h
    exact subKey_grows env st st' _ _ v behind h

theorem agent_addpubkey_grows (env : Env) (sc : system_config) (value : CStr)
    (comment : Option CStr) : Grows sc (agent_addpubkey env sc value comment).2 := by
  unfold agent_addpubkey
  simp only
  split_ifs
  · exact ⟨rfl, rfl, rfl, [], by simp, by simp⟩
  · exact Grows.refl sc

/-- The dispatch on the key only appends addresses and leaves `sc_stack`, `sc_hostname`
and `sc_instance` alone. -/
theorem dispatch_grows (env : Env) (st st' : State) (k v : CStr) (behind : List Char)
    (h : Reaches (dispatch env st k v behind) st') : Grows st.sc st'.sc := by
  have next : ∀ s : State, Reaches (Flow.next s) st' → s = st' := by
    intro s hs
    rcases hs with hs | hs
    · injection hs
    · exact Flow.noConfusion hs
  unfold dispatch at h
  by_cases h1 : strcasecmp "NETWORK".toList k = 0
  · rw [if_pos h1] at h
    by_cases h2 : strcasecmp "YES".toList v = 0
    · rw [if_pos h2] at h
      rw [← next _ h]
      exact ⟨rfl, rfl, rfl, [], by simp, by simp⟩
    · rw [if_neg h2, if_neg h2] at h
      rw [← next _ h]
      exact Grows.refl st.sc
  · rw [if_neg h1] at h
    by_cases h2 : fnmatch "ETH*_*".toList k 0 ≠ FNM_NOMATCH
    · rw [if_pos h2] at h
      exact ethKey_grows env st st' k v behind h
    · rw [if_neg h2] at h
      by_cases h3 : strcasecmp "HOSTNAME".toList k = 0
      · rw [if_pos h3] at h
        rw [← next _ h]
        exact Grows.refl st.sc
      · rw [if_neg h3] at h
        by_cases h4 : strcasecmp "SSH_PUBLIC_KEY".toList k = 0
        · rw [if_pos h4] at h
          rw [← next _ h]
          exact agent_addpubkey_grows env st.sc v none
        · rw [if_neg h4] at h
          rw [← next _ h]
          exact Grows.refl st.sc

/-- One pass through the body of the loop only appends addresses and leaves `sc_stack`,
`sc_hostname` and `sc_instance` alone. -/
theorem step_grows (env : Env) (st st' : State) (l : Line) (h : Reaches (step env st l) st') :
    Grows st.sc st'.sc := by
  unfold step at h
  by_cases hl : l.lineno = 1
  · rw [if_pos hl] at h
    simp only at h
    split_ifs at h <;>
    · rcases h with h | h <;>
        first
          | exact Flow.noConfusion h
          | (injection h with e; rw [← e]; exact Grows.refl st.sc)
  · rw [if_neg hl] at h
    cases hs : splitLine l.text with
    | none =>
      rw [hs] at h
      rcases h with h | h
      · injection h with e
        rw [← e]
        exact Grows.refl st.sc
      · exact Flow.noConfusion h
    | some kvb =>
      obtain ⟨k, v, b⟩ := kvb
      rw [hs] at h
      exact dispatch_grows env st st' k v b h

/-- The loop only appends addresses and leaves `sc_stack`, `sc_hostname` and
`sc_instance` alone, however it is left. -/
theorem parseLoop_grows (env : Env) :
    ∀ (lines : List Line) (st st' : State), Reaches (parseLoop env st lines) st' →
      Grows st.sc st'.sc := by
  intro lines
  induction lines with
  | nil =>
    intro st st' h
    rcases h with h | h
    · simp only [parseLoop] at h
      injection h with e
      rw [← e]
      exact Grows.refl st.sc
    · simp only [parseLoop] at h
      exact Flow.noConfusion h
  | cons l ls ih =>
    intro st st' h
    simp only [parseLoop] at h
    cases hs : step env st l with
    | next s1 =>
      rw [hs] at h
      exact Grows.trans (step_grows env st s1 l (Or.inl hs)) (ih s1 st' h)
    | done s1 =>
      rw [hs] at h
      rcases h with h | h
      · exact Flow.noConfusion h
      · injection h with e
        rw [← e]
        exact step_grows env st s1 l (Or.inr hs)
    | overrun =>
      rw [hs] at h
      rcases h with h | h <;> exact Flow.noConfusion h

/-- The two ways in which `opennebula` returns once the file is open: from `done`
with the state of the loop, or through the code behind the loop. -/
theorem opennebula_cases (env : Env) (sc : system_config) (lines : List Line) (r : Int)
    (sc' : system_config) (hctx : env.context = some lines)
    (h : opennebula env sc = some (r, sc')) :
    (∃ st, parseLoop env (initState sc) lines = .done st ∧ r = st.ret ∧ sc' = st.sc) ∨
    (∃ st, parseLoop env (initState sc) lines = .next st ∧ finish env st = (r, sc')) := by
  unfold opennebula at h
  rw [hctx] at h
  simp only at h
  cases hp : parseLoop env (initState sc) lines with
  | next st =>
    rw [hp] at h
    simp only [Option.some.injEq] at h
    exact Or.inr ⟨st, rfl, h⟩
  | done st =>
    rw [hp] at h
    simp only [Option.some.injEq, Prod.mk.injEq] at h
    exact Or.inl ⟨st, rfl, h.1.symm, h.2.symm⟩
  | overrun =>
    rw [hp] at h
    exact Option.noConfusion h

theorem finish_netaddr (env : Env) (st : State) :
    (finish env st).2.sc_netaddr = st.sc.sc_netaddr := by
  unfold finish
  cases env.SHA256File with
  | none => rfl
  | some d =>
    cases st.hname with
    | none => rfl
    | some h => rfl

/-- Whatever `opennebula` returns, the address list at entry is a prefix of the list at
return and the addresses appended satisfy `DnsUnitZero`. -/
theorem opennebula_netaddr (env : Env) (sc : system_config) (r : Int) (sc' : system_config)
    (h : opennebula env sc = some (r, sc')) :
    ∃ ext, sc'.sc_netaddr = sc.sc_netaddr ++ ext ∧ ∀ a ∈ ext, DnsUnitZero a := by
  cases hctx : env.context with
  | none =>
    unfold opennebula at h
    rw [hctx] at h
    simp only [Option.some.injEq, Prod.mk.injEq] at h
    rw [← h.2]
    exact ⟨[], by simp, by simp⟩
  | some lines =>
    rcases opennebula_cases env sc lines r sc' hctx h with ⟨st, hp, _, hsc⟩ | ⟨st, hp, hf⟩
    · rw [hsc]
      exact (parseLoop_grows env lines _ st (Or.inr hp)).2.2.2
    · have e : sc'.sc_netaddr = st.sc.sc_netaddr := by
        rw [← finish_netaddr env st, hf]
      rw [e]
      exact (parseLoop_grows env lines _ st (Or.inl hp)).2.2.2

theorem toNat_eq_zero {c : Char} (h : c.toNat = 0) : c = '\x00' := by
  rw [← Char.ofNat_toNat c, h]

/-- On C strings `strcmp` returns 0 only for equal strings. -/
theorem strcmp_eq_zero : ∀ (a b : CStr), '\x00' ∉ a → '\x00' ∉ b → strcmp a b = 0 → a = b := by
  intro a
  induction a with
  | nil =>
    intro b _ hb h
    cases b with
    | nil => rfl
    | cons y ys =>
      rw [strcmp] at h
      have : y.toNat = 0 := by omega
      exact absurd (toNat_eq_zero this ▸ List.mem_cons_self y ys) hb
  | cons x xs ih =>
    intro b ha hb h
    cases b with
    | nil =>
      rw [strcmp] at h
      have : x.toNat = 0 := by omega
      exact absurd (toNat_eq_zero this ▸ List.mem_cons_self x xs) ha
    | cons y ys =>
      rw [strcmp] at h
      by_cases hxy : x = y
      · rw [if_pos hxy] at h
        rw [hxy, ih ys (fun hm => ha (List.mem_cons_of_mem _ hm))
          (fun hm => hb (List.mem_cons_of_mem _ hm)) h]
      · rw [if_neg hxy] at h
        exact absurd h (toNat_sub_ne_zero hxy)

/-- Without a `HOSTNAME` line and without a `MAC` line of unit 0 no host name is staged. -/
theorem foldl_stage_none (ls : List Line)
    (hno : ∀ l ∈ ls, hostnameOf l = none) (hmac : ∀ l ∈ ls, mac0Of l = none) :
    ls.foldl stage none = none := by
  induction ls with
  | nil => rfl
  | cons l ls ih =>
    have hs : stage none l = none := by
      have hm := hmac l (by simp)
      unfold mac0Of at hm
      unfold stage
      rw [hno l (by simp)]
      cases hmac' : macOf l with
      | none => rfl
      | some p =>
        obtain ⟨u, v⟩ := p
        rw [hmac'] at hm
        simp only at hm ⊢
        split_ifs at hm with hu
        simp [hu]
    rw [List.foldl_cons, hs]
    exact ih (fun l hl => hno l (by simp [hl])) (fun l hl => hmac l (by simp [hl]))

theorem finish_hostname (env : Env) (st : State) (h : st.hname = none) :
    (finish env st).2.sc_hostname = st.sc.sc_hostname := by
  unfold finish
  rw [h]
  cases env.SHA256File with
  | none => rfl
  | some d => rfl

/-- When the body of the loop leaves by `goto done` at a line, `opennebula` returns `ret`
and the configuration as they stand there; the lines behind it play no part. -/
theorem opennebula_done (env : Env) (sc : system_config) (pre post : List Line) (l : Line)
    (st st' : State) (hctx : env.context = some (pre ++ l :: post))
    (hpre : parseLoop env (initState sc) pre = .next st)
    (hstep : step env st l = .done st') :
    opennebula env sc = some (st'.ret, st'.sc) := by
  have hab := parseLoop_append env pre (l :: post) (initState sc)
  rw [hpre] at hab
  simp only [parseLoop, hstep] at hab
  unfold opennebula
  rw [hctx]
  simp only [hab]

theorem joinBefore_append (acc : List (CStr × Char)) (r tail : List Char) :
    joinBefore acc r ++ tail = joinBefore acc (r ++ tail) := by
  induction acc with
  | nil => rfl
  | cons p acc ih =>
    obtain ⟨t, s⟩ := p
    simp only [joinBefore, List.append_assoc, List.cons_append, ih]

theorem joinBefore_mem {acc : List (CStr × Char)} {r : CStr} {c : Char}
    (h : c ∈ joinBefore acc r) : (∃ p ∈ acc, c ∈ p.1 ∨ c = p.2) ∨ c ∈ r := by
  induction acc with
  | nil => exact Or.inr h
  | cons p acc ih =>
    obtain ⟨t, s⟩ := p
    simp only [joinBefore, List.mem_append, List.mem_cons] at h
    rcases h with h | h | h
    · exact Or.inl ⟨(t, s), by simp, Or.inl h⟩
    · exact Or.inl ⟨(t, s), by simp, Or.inr h⟩
    · rcases ih h with ⟨p, hp, hc⟩ | hc
      · exact Or.inl ⟨p, by simp [hp], hc⟩
      · exact Or.inr hc

theorem joinBefore_ne_nil (acc : List (CStr × Char)) {r : CStr} (h : r ≠ []) :
    joinBefore acc r ≠ [] := by
  cases acc with
  | nil => exact h
  | cons p acc =>
    obtain ⟨t, s⟩ := p
    simp [joinBefore]

theorem withTokens_nil (sc : system_config) (kind : net_type) : withTokens sc kind [] = sc := by
  simp [withTokens]

theorem withTokens_cons (sc : system_config) (kind : net_type) (t : CStr) (ts : List CStr) :
    withTokens { sc with sc_netaddr := sc.sc_netaddr ++ [⟨0, .AF_UNSPEC, kind, t⟩] } kind ts
      = withTokens sc kind (t :: ts) := by
  simp [withTokens]

/-- The token loop stops at the first token the registration function rejects: the
tokens in front of it have been appended, the result is the code of the rejection. -/
theorem tokenLoop_reject (env : Env) (kind : net_type) :
    ∀ (acc : List (CStr × Char)) (bad : CStr) (d : Char) (m : List Char) (fuel : Nat)
      (ret : Int) (sc : system_config),
      (∀ p ∈ acc, GoodToken p.1 ∧ (p.2 = ' ' ∨ p.2 = '\t')) → GoodToken bad →
      (d = ' ' ∨ d = '\t' ∨ d = '\x00') →
      (∀ sc' p, p ∈ acc → env.addnetaddr_ret sc' ⟨0, .AF_UNSPEC, kind, p.1⟩ = 0) →
      env.addnetaddr_ret (withTokens sc kind (acc.map Prod.fst)) ⟨0, .AF_UNSPEC, kind, bad⟩ ≠ 0 →
      acc.length + 1 ≤ fuel →
      tokenLoop env kind fuel ret sc (joinBefore acc (bad ++ d :: m))
        = some (env.addnetaddr_ret (withTokens sc kind (acc.map Prod.fst))
            ⟨0, .AF_UNSPEC, kind, bad⟩, withTokens sc kind (acc.map Prod.fst)) := by
  intro acc
  induction acc with
  | nil =>
    intro bad d m fuel ret sc _ hbad hd _ hrej hfuel
    obtain ⟨f, rfl⟩ : ∃ f, fuel = f + 1 := ⟨fuel - 1, by simp at hfuel; omega⟩
    have ht : ∀ c ∈ bad, c ≠ ' ' ∧ c ≠ '\t' ∧ c ≠ '\x00' :=
      fun c hc => ⟨(hbad.2 c hc).1, (hbad.2 c hc).2.1, (hbad.2 c hc).2.2.2.2.2⟩
    simp only [List.map_nil, withTokens_nil] at hrej ⊢
    simp only [joinBefore]
    rw [tokenLoop_iter env kind f ret sc m ht hd (Or.inl hbad.1),
      agent_addnetaddr_fail env sc 0 bad .AF_UNSPEC kind hrej]
    simp only [ne_eq, hrej, not_false_eq_true, if_true]
  | cons p acc ih =>
    intro bad d m fuel ret sc hacc hbad hd hok hrej hfuel
    obtain ⟨t, s⟩ := p
    obtain ⟨f, rfl⟩ : ∃ f, fuel = f + 1 := ⟨fuel - 1, by simp at hfuel; omega⟩
    have hg := (hacc (t, s) (by simp)).1
    have ht : ∀ c ∈ t, c ≠ ' ' ∧ c ≠ '\t' ∧ c ≠ '\x00' :=
      fun c hc => ⟨(hg.2 c hc).1, (hg.2 c hc).2.1, (hg.2 c hc).2.2.2.2.2⟩
    have hs : s = ' ' ∨ s = '\t' ∨ s = '\x00' := by
      rcases (hacc (t, s) (by simp)).2 with h | h
      · exact Or.inl h
      · exact Or.inr (Or.inl h)
    simp only [List.map_cons, ← withTokens_cons] at hrej ⊢
    simp only [joinBefore]
    rw [tokenLoop_iter env kind f ret sc _ ht hs (Or.inl hg.1),
      agent_addnetaddr_ok env sc 0 t .AF_UNSPEC kind (hok sc (t, s) (by simp))]
    simp only [ne_eq, not_true_eq_false, if_false]
    exact ih bad d m f 0 _ (fun p hp => hacc p (by simp [hp])) hbad hd
      (fun sc' p hp => hok sc' p (by simp [hp])) hrej (by simp at hfuel ⊢; omega)

/-- A single-valued interface line whose entry the registration function rejects leaves
the loop by `goto done` with the code of the rejection and the configuration as it
was. -/
theorem step_single_reject (env : Env) (st : State) (ln n : Nat) (sub : CStr)
    (af : AddrFamily) (kind : net_type) (q : Char) (X : CStr)
    (hl : ln ≠ 1) (hn : n ≤ 65535) (hsub : (sub, af, kind) ∈ singleTable)
    (hq : q = '"' ∨ q = '\'') (hX : X ≠ []) (hX1 : '#' ∉ X) (hX2 : q ∉ X)
    (hrej : env.addnetaddr_ret st.sc ⟨n, af, kind, X⟩ ≠ 0) :
    ∃ st', step env st ⟨ln, "ETH".toList ++ (Nat.repr n).toList ++ '_' :: sub
        ++ '=' :: q :: (X ++ [q])⟩ = .done st' ∧ st'.sc = st.sc ∧
      st'.ret = env.addnetaddr_ret st.sc ⟨n, af, kind, X⟩ := by
  have hstep := fun h1 h2 => step_eth_line env st ln sub X q hl (isDecimal_repr n) hn h1 h2
    hq hX hX1 hX2
  simp only [singleTable, List.mem_cons, Prod.mk.injEq, List.mem_singleton,
    List.not_mem_nil, or_false] at hsub
  rcases hsub with h | h | h | h | h | h | h | h <;>
  · obtain ⟨rfl, rfl, rfl⟩ := h
    have := hstep (by decide) (by decide)
    simp only [String.toList, List.cons_append, List.nil_append, List.append_assoc] at this ⊢
    rw [this]
    simp +decide [subKey, agent_addnetaddr, checkRet, hrej]

/-- A list-valued interface line leaves the loop by `goto done` at the first token the
registration function rejects, with the tokens in front of it appended. -/
theorem step_list_reject (env : Env) (st : State) (ln n : Nat) (name : CStr)
    (kind : net_type) (q : Char) (acc : List (CStr × Char)) (bad : CStr)
    (more : List (Char × CStr))
    (hl : ln ≠ 1) (hn : n ≤ 65535) (hname : (name, kind) ∈ listTable)
    (hq : q = '"' ∨ q = '\'')
    (hacc : ∀ p ∈ acc, GoodToken p.1 ∧ (p.2 = ' ' ∨ p.2 = '\t'))
    (hbad : ∀ t ∈ bad :: more.map Prod.snd, GoodToken t)
    (hsep : ∀ p ∈ more, p.1 = ' ' ∨ p.1 = '\t')
    (hok : ∀ sc' p, p ∈ acc → env.addnetaddr_ret sc' ⟨0, .AF_UNSPEC, kind, p.1⟩ = 0)
    (hrej : env.addnetaddr_ret (withTokens st.sc kind (acc.map Prod.fst))
      ⟨0, .AF_UNSPEC, kind, bad⟩ ≠ 0) :
    step env st ⟨ln, "ETH".toList ++ (Nat.repr n).toList ++ '_' :: name
        ++ '=' :: q :: (joinBefore acc (joinTokens bad more) ++ [q])⟩
      = .done ⟨withTokens st.sc kind (acc.map Prod.fst), st.hname,
          env.addnetaddr_ret (withTokens st.sc kind (acc.map Prod.fst))
            ⟨0, .AF_UNSPEC, kind, bad⟩⟩ := by
  have hX : joinBefore acc (joinTokens bad more) ≠ [] :=
    joinBefore_ne_nil acc (joinTokens_ne_nil more (hbad bad (by simp)).1)
  have hmem : ∀ c, c = '#' ∨ c = '"' ∨ c = '\'' → c ∉ joinBefore acc (joinTokens bad more) := by
    intro c hc h
    have tok : ∀ t, GoodToken t → c ∉ t := by
      intro t ht hct
      have := ht.2 c hct
      rcases hc with rfl | rfl | rfl
      · exact this.2.2.1 rfl
      · exact this.2.2.2.1 rfl
      · exact this.2.2.2.2.1 rfl
    have sep : ∀ s : Char, s = ' ' ∨ s = '\t' → c ≠ s := by
      intro s hs hcs
      rcases hs with h1 | h1 <;> rw [h1] at hcs <;> subst hcs <;> simp at hc
    rcases joinBefore_mem h with ⟨p, hp, hcp | hcp⟩ | h
    · exact tok p.1 (hacc p hp).1 hcp
    · exact sep p.2 (hacc p hp).2 hcp
    · rcases joinTokens_mem h with ⟨t, ht, hct⟩ | ⟨p, hp, hcp⟩
      · exact tok t (hbad t ht) hct
      · exact sep p.1 (hsep p hp) hcp
  have hX1 := hmem '#' (Or.inl rfl)
  have hX2 : q ∉ joinBefore acc (joinTokens bad more) := by
    rcases hq with rfl | rfl
    · exact hmem _ (Or.inr (Or.inl rfl))
    · exact hmem _ (Or.inr (Or.inr rfl))
  have hshape : ∃ d m, (d = ' ' ∨ d = '\t' ∨ d = '\x00') ∧
      joinBefore acc (joinTokens bad more) ++ ['\x00', '\x00']
        = joinBefore acc (bad ++ d :: m) := by
    rw [joinBefore_append]
    cases more with
    | nil => exact ⟨'\x00', ['\x00'], Or.inr (Or.inr rfl), rfl⟩
    | cons p more =>
      obtain ⟨s, t⟩ := p
      refine ⟨s, joinTokens t more ++ ['\x00', '\x00'], ?_, ?_⟩
      · rcases hsep (s, t) (by simp) with h | h
        · exact Or.inl h
        · exact Or.inr (Or.inl h)
      · simp [joinTokens]
  obtain ⟨d, m, hd, hsh⟩ := hshape
  have hloop : tokenLoop env kind
      ((joinBefore acc (joinTokens bad more) ++ ['\x00', '\x00']).length + 1) st.ret st.sc
      (joinBefore acc (joinTokens bad more) ++ ['\x00', '\x00'])
      = some (env.addnetaddr_ret (withTokens st.sc kind (acc.map Prod.fst))
          ⟨0, .AF_UNSPEC, kind, bad⟩, withTokens st.sc kind (acc.map Prod.fst)) := by
    rw [tokenLoop_fuel env kind _
      ((joinBefore acc (joinTokens bad more) ++ ['\x00', '\x00']).length + acc.length + 1)
      st.ret st.sc _ (by omega) (by omega), hsh]
    exact tokenLoop_reject env kind acc bad d m _ st.ret st.sc hacc (hbad bad (by simp)) hd
      hok hrej (by omega)
  simp only [listTable, List.mem_cons, Prod.mk.injEq, List.mem_singleton,
    List.not_mem_nil, or_false] at hname
  rcases hname with h | h
  · obtain ⟨rfl, rfl⟩ := h
    have := step_eth_line env st ln "DNS".toList (joinBefore acc (joinTokens bad more)) q hl
      (isDecimal_repr n) hn (by decide) (by decide) hq hX hX1 hX2
    simp only [String.toList, List.cons_append, List.nil_append, List.append_assoc] at this ⊢
    rw [this]
    simp only [subKey]
    rw [if_pos (by decide), hloop]
    simp only [checkRet, ne_eq, hrej, not_false_eq_true, if_true]
  · obtain ⟨rfl, rfl⟩ := h
    have := step_eth_line env st ln "SEARCH_DOMAIN".toList
      (joinBefore acc (joinTokens bad more)) q hl
      (isDecimal_repr n) hn (by decide) (by decide) hq hX hX1 hX2
    simp only [String.toList, List.cons_append, List.nil_append, List.append_assoc] at this ⊢
    rw [this]
    simp only [subKey]
    rw [if_neg (by decide), if_pos (by decide), hloop]
    simp only [checkRet, ne_eq, hrej, not_false_eq_true, if_true]

/-! ## The claims of the specification -/

/-- Claim C1. A line `ETH<n>_<SUB>="X"` (or with single quotes) read after the header,
with `n` in 0..65535 written in decimal, `<SUB>` one of the eight single-valued
subkeys and a non-empty `X` free of `#` and of the quote, appends exactly one address
with unit `n`, value `X` and the family and kind of the table, provided the
registration function accepts it; the loop goes on with `ret == 0`. -/
theorem C1_single_value_address (env : Env) (st : State) (l : Line) (n : Nat)
    (sub : CStr) (af : AddrFamily) (kind : net_type) (q : Char) (X : CStr)
    (hl : l.lineno ≠ 1) (hn : n ≤ 65535) (hsub : (sub, af, kind) ∈ singleTable)
    (hq : q = '"' ∨ q = '\'') (hX : X ≠ []) (hX1 : '#' ∉ X) (hX2 : q ∉ X)
    (htext : l.text
      = "ETH".toList ++ (Nat.repr n).toList ++ '_' :: sub ++ '=' :: q :: (X ++ [q]))
    (hreg : env.addnetaddr_ret st.sc ⟨n, af, kind, X⟩ = 0) :
    ∃ st', step env st l = .next st' ∧ st'.ret = 0 ∧
      st'.sc = { st.sc with sc_netaddr := st.sc.sc_netaddr ++ [⟨n, af, kind, X⟩] } := by
  obtain ⟨ln, text⟩ := l
  simp only at hl htext
  subst htext
  have hstep := fun h1 h2 => step_eth_line env st ln sub X q hl (isDecimal_repr n) hn h1 h2
    hq hX hX1 hX2
  simp only [singleTable, List.mem_cons, Prod.mk.injEq, List.mem_singleton,
    List.not_mem_nil, or_false] at hsub
  rcases hsub with h | h | h | h | h | h | h | h <;>
  · obtain ⟨rfl, rfl, rfl⟩ := h
    have := hstep (by decide) (by decide)
    simp only [String.toList, List.cons_append, List.nil_append, List.append_assoc] at this ⊢
    rw [this]
    simp +decide [subKey, agent_addnetaddr, checkRet, hreg]

/-- Claim C1, witness: `ETH12_IP="10.0.0.5"` yields {unit 12, IPv4, IP, "10.0.0.5"}. -/
theorem C1_single_value_address_witness :
    ∃ st', step (envOf none none) ⟨freshConfig, none, 0⟩ ⟨2, "ETH12_IP=\"10.0.0.5\"".toList⟩
        = .next st' ∧ st'.ret = 0 ∧
      st'.sc = { freshConfig with
        sc_netaddr := freshConfig.sc_netaddr ++ [⟨12, .AF_INET, .NET_IP, "10.0.0.5".toList⟩] } :=
  C1_single_value_address (envOf none none) ⟨freshConfig, none, 0⟩
    ⟨2, "ETH12_IP=\"10.0.0.5\"".toList⟩ 12 "IP".toList .AF_INET .NET_IP '"' "10.0.0.5".toList
    (by decide) (by decide) (by decide) (Or.inl rfl) (by decide) (by decide) (by decide)
    (by decide) rfl

/-- Claim C2. The code does not return failure for a malformed unit: after a valid
header `ret` is 0 when `goto done` is taken, so `opennebula` returns 0 for `ETH_IP`,
`ETHx_IP` and `ETH65536_IP`, also after a line that was processed successfully. -/
theorem C2_malformed_unit_returns_zero :
    opennebula (envOf (some [⟨1, HEADER⟩, ⟨2, "ETH_IP=\"1.2.3.4\"".toList⟩])
        (some "digest".toList)) freshConfig
      = some (0, { freshConfig with sc_stack := some "opennebula".toList }) ∧
    opennebula (envOf (some [⟨1, HEADER⟩, ⟨2, "ETHx_IP=\"1.2.3.4\"".toList⟩])
        (some "digest".toList)) freshConfig
      = some (0, { freshConfig with sc_stack := some "opennebula".toList }) ∧
    opennebula (envOf (some [⟨1, HEADER⟩, ⟨2, "ETH65536_IP=\"1.2.3.4\"".toList⟩])
        (some "digest".toList)) freshConfig
      = some (0, { freshConfig with sc_stack := some "opennebula".toList }) ∧
    opennebula (envOf (some [⟨1, HEADER⟩, ⟨2, "ETH0_IP=\"10.0.0.5\"".toList⟩,
        ⟨3, "ETH65536_IP=\"1.2.3.4\"".toList⟩]) (some "digest".toList)) freshConfig
      = some (0, { freshConfig with
          sc_stack := some "opennebula".toList,
          sc_netaddr := [⟨0, .AF_INET, .NET_IP, "10.0.0.5".toList⟩] }) := by
  decide

/-- Claim C3. The header is only checked on a line numbered 1: when the first logical
line was joined from two physical lines (`ETH0_IP=\` continued by `"10.0.0.5"`),
`fparseln` returns it with `lineno == 2`, the check is skipped, the line is processed
and the call succeeds. -/
theorem C3_joined_first_line_skips_header_check :
    strcmp "ETH0_IP=\"10.0.0.5\"".toList HEADER ≠ 0 ∧
    opennebula (envOf (some [⟨2, "ETH0_IP=\"10.0.0.5\"".toList⟩]) (some "digest".toList))
        freshConfig
      = some (0, { freshConfig with
          sc_stack := some "opennebula".toList,
          sc_instance := some "digest".toList,
          sc_netaddr := [⟨0, .AF_INET, .NET_IP, "10.0.0.5".toList⟩] }) := by
  decide

/-- Claim C4, as stated, fails: with no context file the value returned is -1, not 0. -/
theorem C4_absent_file_is_not_success :
    opennebula (envOf none (some "digest".toList)) freshConfig ≠ some (0, freshConfig) := by
  decide

/-- Claim C4, amended. When the context file cannot be opened, `opennebula` returns -1,
the value `ret` was initialised with, and leaves every field of the configuration
unchanged. -/
theorem C4_absent_file (env : Env) (sc : system_config) (h : env.context = none) :
    opennebula env sc = some (-1, sc) := by
  unfold opennebula
  rw [h]

/-- Claim C4, witness. -/
theorem C4_absent_file_witness :
    opennebula (envOf none (some "digest".toList)) freshConfig = some (-1, freshConfig) :=
  C4_absent_file (envOf none (some "digest".toList)) freshConfig rfl

/-- Claim C5, as stated, fails: the value `a#b` has no double quote, yet the line
`HOSTNAME="a#b"` is cut at the `#` before it is dequoted and stages no host name. -/
theorem C5_hash_in_value_not_stored :
    '"' ∉ "a#b".toList ∧
    step (envOf none none) ⟨freshConfig, none, 0⟩ ⟨2, "HOSTNAME=\"a#b\"".toList⟩
      = .next ⟨freshConfig, none, 0⟩ ∧
    step (envOf none none) ⟨freshConfig, none, 0⟩ ⟨2, "ETH0_IP=\"a#b\"".toList⟩
      = .next ⟨freshConfig, none, 0⟩ := by
  decide

/-- Claim C5, amended. For every non-empty `X` that contains neither the enclosing quote
nor `#`, a line `KEY="X"` or `KEY='X'` read after the header is dequoted to exactly
`X`: `HOSTNAME` stages `X` as the host name, and `ETH0_IP` registers an address with
the value `X` when the registration function accepts it. -/
theorem C5_dequote (env : Env) (st : State) (ln : Nat) (q : Char) (X : CStr)
    (hl : ln ≠ 1) (hq : q = '"' ∨ q = '\'') (hX : X ≠ []) (hXq : q ∉ X) (hXh : '#' ∉ X) :
    (∀ k : CStr, '#' ∉ k → '=' ∉ k →
      splitLine (k ++ '=' :: q :: (X ++ [q])) = some (k, X, ['\x00'])) ∧
    step env st ⟨ln, "HOSTNAME=".toList ++ q :: (X ++ [q])⟩
      = .next { st with hname := some X } ∧
    (env.addnetaddr_ret st.sc ⟨0, .AF_INET, .NET_IP, X⟩ = 0 →
      step env st ⟨ln, "ETH0_IP=".toList ++ q :: (X ++ [q])⟩
        = .next { st with
            sc := { st.sc with
              sc_netaddr := st.sc.sc_netaddr ++ [⟨0, .AF_INET, .NET_IP, X⟩] },
            ret := 0 }) := by
  refine ⟨fun k h1 h2 => splitLine_quoted hq h1 h2 hX hXh hXq, ?_, ?_⟩
  · have e : "HOSTNAME=".toList ++ q :: (X ++ [q])
        = "HOSTNAME".toList ++ '=' :: q :: (X ++ [q]) := rfl
    unfold step
    simp only [hl, if_false]
    rw [e, splitLine_quoted hq (by decide) (by decide) hX hXh hXq]
    exact dispatch_hostname env st X _ (by decide)
  · intro hreg
    have e : "ETH0_IP=".toList ++ q :: (X ++ [q])
        = 'E' :: 'T' :: 'H' :: (['0'] ++ '_' :: "IP".toList) ++ '=' :: q :: (X ++ [q]) := rfl
    rw [e, step_eth_line env st ln "IP".toList X q hl
      (⟨by decide, by decide, by decide⟩ : IsDecimal ['0'] 0) (by decide) (by decide)
      (by decide) hq hX hXh hXq]
    unfold subKey
    rw [if_neg (by decide), if_neg (by decide), if_pos (by decide),
      agent_addnetaddr_ok env st.sc 0 X .AF_INET .NET_IP hreg]
    rfl

/-- Claim C5, witness: `HOSTNAME='it"s'` stages `it"s`. -/
theorem C5_dequote_witness :
    step (envOf none none) ⟨freshConfig, none, 0⟩ ⟨2, "HOSTNAME='it\"s'".toList⟩
      = .next ⟨freshConfig, some "it\"s".toList, 0⟩ :=
  (C5_dequote (envOf none none) ⟨freshConfig, none, 0⟩ 2 '\'' "it\"s".toList
    (by decide) (Or.inr rfl) (by decide) (by decide) (by decide)).2.1

/-- Claim C6. A line `ETH<n>_DNS="<value>"` read after the header, with `n` in 0..65535
and a value made of `k >= 1` non-empty tokens (free of space, tab, `#`, quotes) joined
by single spaces or tabs, appends exactly `k` addresses, one per token in the order
written, each with unit 0, family unspecified and kind DNS, provided the registration
function accepts them; `ETH<n>_SEARCH_DOMAIN` does the same with kind
DNS_SEARCH_DOMAIN. -/
theorem C6_list_splitting (env : Env) (st : State) (ln n : Nat) (q : Char)
    (t0 : CStr) (rest : List (Char × CStr))
    (hl : ln ≠ 1) (hn : n ≤ 65535) (hq : q = '"' ∨ q = '\'')
    (hgood : ∀ t ∈ t0 :: rest.map Prod.snd, GoodToken t)
    (hsep : ∀ p ∈ rest, p.1 = ' ' ∨ p.1 = '\t')
    (hreg : ∀ sc t kind, t ∈ t0 :: rest.map Prod.snd →
      env.addnetaddr_ret sc ⟨0, .AF_UNSPEC, kind, t⟩ = 0) :
    step env st ⟨ln, "ETH".toList ++ (Nat.repr n).toList ++ "_DNS=".toList
        ++ q :: (joinTokens t0 rest ++ [q])⟩
      = .next { st with
          sc := { st.sc with sc_netaddr := st.sc.sc_netaddr ++
            (t0 :: rest.map Prod.snd).map (fun t => ⟨0, .AF_UNSPEC, .NET_DNS, t⟩) },
          ret := 0 } ∧
    step env st ⟨ln, "ETH".toList ++ (Nat.repr n).toList ++ "_SEARCH_DOMAIN=".toList
        ++ q :: (joinTokens t0 rest ++ [q])⟩
      = .next { st with
          sc := { st.sc with sc_netaddr := st.sc.sc_netaddr ++
            (t0 :: rest.map Prod.snd).map (fun t => ⟨0, .AF_UNSPEC, .NET_DNS_DOMAIN, t⟩) },
          ret := 0 } := by
  have hX : joinTokens t0 rest ≠ [] := joinTokens_ne_nil rest (hgood t0 (by simp)).1
  have hmem : ∀ c, c = '#' ∨ c = '"' ∨ c = '\'' → c ∉ joinTokens t0 rest := by
    intro c hc h
    rcases joinTokens_mem h with ⟨t, ht, hct⟩ | ⟨p, hp, hcp⟩
    · have := (hgood t ht).2 c hct
      rcases hc with rfl | rfl | rfl
      · exact this.2.2.1 rfl
      · exact this.2.2.2.1 rfl
      · exact this.2.2.2.2.1 rfl
    · rcases hsep p hp with h1 | h1 <;> rw [h1] at hcp <;> subst hcp <;> simp at hc
  have hX1 := hmem '#' (Or.inl rfl)
  have hX2 : q ∉ joinTokens t0 rest := by
    rcases hq with rfl | rfl
    · exact hmem _ (Or.inr (Or.inl rfl))
    · exact hmem _ (Or.inr (Or.inr rfl))
  have hfuel : rest.length + 2 ≤ (joinTokens t0 rest ++ ['\x00', '\x00']).length + 1 := by
    have := joinTokens_length t0 rest
    simp
    omega
  constructor
  · have := step_eth_line env st ln "DNS".toList (joinTokens t0 rest) q hl (isDecimal_repr n)
      hn (by decide) (by decide) hq hX hX1 hX2
    simp only [String.toList, List.cons_append, List.nil_append, List.append_assoc] at this ⊢
    rw [this]
    have hloop := tokenLoop_join env .NET_DNS rest t0 _ st.ret st.sc [] hgood hsep
      (fun sc' t h => hreg sc' t _ h) hfuel
    simp only [subKey]
    rw [if_pos (by decide), hloop]
    simp [checkRet]
  · have := step_eth_line env st ln "SEARCH_DOMAIN".toList (joinTokens t0 rest) q hl
      (isDecimal_repr n) hn (by decide) (by decide) hq hX hX1 hX2
    simp only [String.toList, List.cons_append, List.nil_append, List.append_assoc] at this ⊢
    rw [this]
    have hloop := tokenLoop_join env .NET_DNS_DOMAIN rest t0 _ st.ret st.sc [] hgood hsep
      (fun sc' t h => hreg sc' t _ h) hfuel
    simp only [subKey]
    rw [if_neg (by decide), if_pos (by decide), hloop]
    simp [checkRet]

/-- Claim C6, witness: `ETH0_DNS="8.8.8.8 8.8.4.4"` appends `8.8.8.8` then `8.8.4.4`. -/
theorem C6_list_splitting_witness :
    step (envOf none none) ⟨freshConfig, none, 0⟩ ⟨2, "ETH0_DNS=\"8.8.8.8 8.8.4.4\"".toList⟩
      = .next ⟨{ freshConfig with
          sc_netaddr := [⟨0, .AF_UNSPEC, .NET_DNS, "8.8.8.8".toList⟩,
            ⟨0, .AF_UNSPEC, .NET_DNS, "8.8.4.4".toList⟩] }, none, 0⟩ :=
  (C6_list_splitting (envOf none none) ⟨freshConfig, none, 0⟩ 2 0 '"' "8.8.8.8".toList
    [(' ', "8.8.4.4".toList)] (by decide) (by decide) (Or.inl rfl) (by decide) (by decide)
    (fun _ _ _ _ => rfl)).1

/-- Claim C7. When the loop consumes every line of the context file and the digest is
computed, and the file has a `HOSTNAME` line, the final `sc_hostname` is the value of
the last `HOSTNAME` line, wherever `MAC` lines of unit 0 stand. -/
theorem C7_hostname_precedence (env : Env) (sc : system_config) (lines : List Line)
    (st : State) (digest h : CStr)
    (hctx : env.context = some lines)
    (hrun : parseLoop env (initState sc) lines = .next st)
    (hsha : env.SHA256File = some digest)
    (hlast : (lines.filterMap hostnameOf).getLast? = some h) :
    ∃ sc', opennebula env sc = some (0, sc') ∧ sc'.sc_hostname = some h := by
  have hst : st.hname = some h := by
    rw [parseLoop_stage env lines _ st hrun]
    exact foldl_stage_last lines _ h hlast
  unfold opennebula
  rw [hctx]
  simp only [hrun, finish, hsha, hst]
  exact ⟨_, rfl, rfl⟩

/-- Claim C7, witness: `ETH0_MAC="02:00:0a:00:00:01"` followed by `HOSTNAME="custom"`
gives `custom`. -/
theorem C7_hostname_precedence_witness :
    ∃ sc', opennebula (envOf (some [⟨1, HEADER⟩, ⟨2, "ETH0_MAC=\"02:00:0a:00:00:01\"".toList⟩,
        ⟨3, "HOSTNAME=\"custom\"".toList⟩]) (some "digest".toList)) freshConfig
      = some (0, sc') ∧ sc'.sc_hostname = some "custom".toList :=
  C7_hostname_precedence _ freshConfig
    [⟨1, HEADER⟩, ⟨2, "ETH0_MAC=\"02:00:0a:00:00:01\"".toList⟩,
      ⟨3, "HOSTNAME=\"custom\"".toList⟩]
    ⟨{ freshConfig with
        sc_stack := some "opennebula".toList,
        sc_netaddr := [⟨0, .AF_UNSPEC, .NET_MAC, "02:00:0a:00:00:01".toList⟩] },
      some "custom".toList, 0⟩
    "digest".toList "custom".toList rfl (by decide) rfl (by decide)

/-- Claim C8. When the loop consumes every line of the context file and the digest is
computed, and the file has no `HOSTNAME` line and at least one `MAC` line of unit 0,
the final `sc_hostname` is `vm` followed by the alphanumeric bytes of the value of the
first such line, in order; and a `MAC` line of a unit other than 0 leaves the staged
host name as it was. -/
theorem C8_mac_hostname (env : Env) (sc : system_config) (lines : List Line)
    (st : State) (digest v : CStr)
    (hctx : env.context = some lines)
    (hrun : parseLoop env (initState sc) lines = .next st)
    (hsha : env.SHA256File = some digest)
    (hno : ∀ l ∈ lines, hostnameOf l = none)
    (hfirst : (lines.filterMap mac0Of).head? = some v) :
    (∃ sc', opennebula env sc = some (0, sc') ∧
      sc'.sc_hostname = some ("vm".toList ++ v.filter isalnum)) ∧
    (∀ (s : State) (l : Line) (n : Nat) (w : CStr), macOf l = some (n, w) → n ≠ 0 →
      ∃ s', (step env s l = .next s' ∨ step env s l = .done s') ∧ s'.hname = s.hname) := by
  constructor
  · have hst : st.hname = some ("vm".toList ++ v.filter isalnum) := by
      rw [parseLoop_stage env lines _ st hrun]
      exact foldl_stage_mac lines v hno hfirst
    unfold opennebula
    rw [hctx]
    simp only [hrun, finish, hsha, hst]
    exact ⟨_, rfl, rfl⟩
  · intro s l n w hmac hn
    unfold macOf at hmac
    unfold step
    by_cases hl : l.lineno = 1
    · rw [if_pos hl] at hmac
      exact Option.noConfusion hmac
    · rw [if_neg hl] at hmac ⊢
      cases hsp : splitLine l.text with
      | none => rw [hsp] at hmac; exact Option.noConfusion hmac
      | some kvb =>
        obtain ⟨k, v', b⟩ := kvb
        rw [hsp] at hmac
        simp only at hmac ⊢
        split_ifs at hmac with hc
        obtain ⟨hf, hu, hm⟩ := hc
        simp only [Option.some.injEq, Prod.mk.injEq] at hmac
        obtain ⟨r, rfl⟩ := fnmatch_eth_head hf
        rw [dispatch_eth, if_pos hf]
        unfold ethKey
        simp only [hu, Option.isSome_none, Bool.false_eq_true, if_false]
        rw [subKey_mac env s _ v' b hm, hmac.1]
        have hh : (if n = 0 ∧ s.hname = none then some ("vm".toList ++ v'.filter isalnum)
            else s.hname) = s.hname := if_neg (fun hc => hn hc.1)
        rw [hh]
        exact checkRet_hname s.hname _

/-- Claim C8, witness: `ETH0_MAC="02:00:0a:00:00:01"` alone gives `vm02000a000001`. -/
theorem C8_mac_hostname_witness :
    ∃ sc', opennebula (envOf (some [⟨1, HEADER⟩, ⟨2, "ETH0_MAC=\"02:00:0a:00:00:01\"".toList⟩])
        (some "digest".toList)) freshConfig
      = some (0, sc') ∧ sc'.sc_hostname = some "vm02000a000001".toList :=
  (C8_mac_hostname _ freshConfig
    [⟨1, HEADER⟩, ⟨2, "ETH0_MAC=\"02:00:0a:00:00:01\"".toList⟩]
    ⟨{ freshConfig with
        sc_stack := some "opennebula".toList,
        sc_netaddr := [⟨0, .AF_UNSPEC, .NET_MAC, "02:00:0a:00:00:01".toList⟩] },
      some "vm02000a000001".toList, 0⟩
    "digest".toList "02:00:0a:00:00:01".toList rfl (by decide) rfl (by decide) (by decide)).1

/-- Claim C9. A line read after the header that, once the comment is stripped, has no
`=`, or nothing behind its first `=`, or a value that does not begin with a quote, or
an opening quote with no later quote of its kind, or an empty quoted text, leaves the
configuration, the staged host name and `ret` unchanged, and the loop goes on. -/
theorem C9_skip_malformed (env : Env) (st : State) (l : Line)
    (hl : l.lineno ≠ 1) (h : Malformed l.text) : step env st l = .next st := by
  unfold step
  rw [if_neg hl, splitLine_malformed h]

/-- Claim C9, witness: the line `ETH0_IP` has no `=`. -/
theorem C9_skip_malformed_witness :
    Malformed "ETH0_IP".toList ∧
    step (envOf none none) ⟨freshConfig, none, 0⟩ ⟨2, "ETH0_IP".toList⟩
      = .next ⟨freshConfig, none, 0⟩ :=
  ⟨Or.inl (by decide),
    C9_skip_malformed _ _ ⟨2, "ETH0_IP".toList⟩ (by decide) (Or.inl (by decide))⟩

/-- Claim C10, as stated, fails: the key `ETH_FOO` matches `ETH*_*` and `FOO` is none of
the known subkeys, yet the empty unit ends the loop with `goto done`, and the line
behind it is never read. -/
theorem C10_bad_unit_ends_parse :
    fnmatch "ETH*_*".toList (keyOf "ETH_FOO=\"x\"".toList) 0 ≠ FNM_NOMATCH ∧
    (∀ name ∈ subkeyNames, strcasecmp name (subkeyText (keyOf "ETH_FOO=\"x\"".toList)) ≠ 0) ∧
    step (envOf none none) ⟨freshConfig, none, 0⟩ ⟨2, "ETH_FOO=\"x\"".toList⟩
      = .done ⟨freshConfig, none, 0⟩ ∧
    opennebula (envOf (some [⟨1, HEADER⟩, ⟨2, "ETH_FOO=\"x\"".toList⟩,
        ⟨3, "ETH0_IP=\"10.0.0.5\"".toList⟩]) (some "digest".toList)) freshConfig
      = some (0, { freshConfig with sc_stack := some "opennebula".toList }) := by
  decide

/-- Claim C10, amended. A line read after the header whose key matches `ETH*_*`, whose
unit text `strtonum` accepts as a number in 0..65535 and whose subkey is none of the
ten known ones (letter case ignored) does not end the loop and appends no address:
the configuration and the staged host name are unchanged. -/
theorem C10_unknown_subkey_ignored (env : Env) (st : State) (l : Line)
    (hl : l.lineno ≠ 1)
    (hm : fnmatch "ETH*_*".toList (keyOf l.text) 0 ≠ FNM_NOMATCH)
    (hu : (strtonum (unitText (keyOf l.text)) 0 UINT16_MAX).2 = none)
    (hsub : ∀ name ∈ subkeyNames, strcasecmp name (subkeyText (keyOf l.text)) ≠ 0) :
    ∃ st', step env st l = .next st' ∧ st'.sc = st.sc ∧ st'.hname = st.hname := by
  unfold step
  rw [if_neg hl]
  cases hsp : splitLine l.text with
  | none => exact ⟨st, rfl, rfl, rfl⟩
  | some kvb =>
    obtain ⟨k, v, b⟩ := kvb
    have hk := splitLine_key hsp
    subst hk
    obtain ⟨r, hr⟩ := fnmatch_eth_head hm
    simp only
    rw [hr] at hm hu hsub ⊢
    rw [dispatch_eth, if_pos hm]
    unfold ethKey
    simp only [hu, Option.isSome_none, Bool.false_eq_true, if_false]
    unfold subKey
    have h := fun name hn => hsub name hn
    simp only [subkeyNames, List.mem_cons, List.mem_singleton, List.not_mem_nil, or_false,
      forall_eq_or_imp, forall_eq] at h
    obtain ⟨h1, h2, h3, h4, h5, h6, h7, h8, h9, h10⟩ := h
    simp only [if_neg h1, if_neg h2, if_neg h3, if_neg h4, if_neg h5, if_neg h6, if_neg h7,
      if_neg h8, if_neg h9, if_neg h10]
    exact ⟨_, rfl, rfl, rfl⟩

/-- Claim C10, witness: `ETH0_FOO="x"` is passed over. -/
theorem C10_unknown_subkey_ignored_witness :
    ∃ st', step (envOf none none) ⟨freshConfig, none, 0⟩ ⟨2, "ETH0_FOO=\"x\"".toList⟩
        = .next st' ∧ st'.sc = freshConfig ∧ st'.hname = none :=
  C10_unknown_subkey_ignored (envOf none none) ⟨freshConfig, none, 0⟩
    ⟨2, "ETH0_FOO=\"x\"".toList⟩ (by decide) (by decide) (by decide) (by decide)

/-- Claim C11. Whatever `opennebula` returns, the address list at entry is a prefix of the
list at return; and the list as it stands after any initial part of the file has been
processed is a prefix of the list at return, so what the lines before a failing line
appended is still there, in file order. -/
theorem C11_append_only (env : Env) (sc : system_config) (r : Int) (sc' : system_config)
    (h : opennebula env sc = some (r, sc')) :
    sc.sc_netaddr <+: sc'.sc_netaddr ∧
    ∀ (a b : List Line) (st : State), env.context = some (a ++ b) →
      parseLoop env (initState sc) a = .next st →
      sc.sc_netaddr <+: st.sc.sc_netaddr ∧ st.sc.sc_netaddr <+: sc'.sc_netaddr := by
  constructor
  · obtain ⟨ext, he, _⟩ := opennebula_netaddr env sc r sc' h
    exact ⟨ext, he.symm⟩
  · intro a b st hctx ha
    refine ⟨(parseLoop_grows env a _ st (Or.inl ha)).initial, ?_⟩
    have hab := parseLoop_append env a b (initState sc)
    rw [ha] at hab
    simp only at hab
    rcases opennebula_cases env sc (a ++ b) r sc' hctx h with ⟨s, hp, _, hsc⟩ | ⟨s, hp, hf⟩
    · rw [hab] at hp
      rw [hsc]
      exact (parseLoop_grows env b st s (Or.inr hp)).initial
    · rw [hab] at hp
      obtain ⟨ext, he⟩ := (parseLoop_grows env b st s (Or.inl hp)).initial
      refine ⟨ext, ?_⟩
      rw [he, ← finish_netaddr env s, hf]

/-- Claim C11, witness: a valid header, three valid `ETH0_*` lines and then
`ETH70000_IP="1.2.3.4"` leave exactly the three entries appended. -/
theorem C11_append_only_witness :
    opennebula (envOf (some [⟨1, HEADER⟩, ⟨2, "ETH0_IP=\"10.0.0.5\"".toList⟩,
        ⟨3, "ETH0_MASK=\"255.255.255.0\"".toList⟩, ⟨4, "ETH0_GATEWAY=\"10.0.0.1\"".toList⟩,
        ⟨5, "ETH70000_IP=\"1.2.3.4\"".toList⟩]) (some "digest".toList)) freshConfig
      = some (0, { freshConfig with
          sc_stack := some "opennebula".toList,
          sc_netaddr := [⟨0, .AF_INET, .NET_IP, "10.0.0.5".toList⟩,
            ⟨0, .AF_INET, .NET_MASK, "255.255.255.0".toList⟩,
            ⟨0, .AF_INET, .NET_GATEWAY, "10.0.0.1".toList⟩] }) ∧
    freshConfig.sc_netaddr <+: [⟨0, .AF_INET, .NET_IP, "10.0.0.5".toList⟩,
      ⟨0, .AF_INET, .NET_MASK, "255.255.255.0".toList⟩,
      ⟨0, .AF_INET, .NET_GATEWAY, "10.0.0.1".toList⟩] :=
  ⟨by decide,
    (C11_append_only
      (envOf (some [⟨1, HEADER⟩, ⟨2, "ETH0_IP=\"10.0.0.5\"".toList⟩,
        ⟨3, "ETH0_MASK=\"255.255.255.0\"".toList⟩, ⟨4, "ETH0_GATEWAY=\"10.0.0.1\"".toList⟩,
        ⟨5, "ETH70000_IP=\"1.2.3.4\"".toList⟩]) (some "digest".toList)) freshConfig 0
      { freshConfig with
          sc_stack := some "opennebula".toList,
          sc_netaddr := [⟨0, .AF_INET, .NET_IP, "10.0.0.5".toList⟩,
            ⟨0, .AF_INET, .NET_MASK, "255.255.255.0".toList⟩,
            ⟨0, .AF_INET, .NET_GATEWAY, "10.0.0.1".toList⟩] } (by decide)).1⟩

/-- Claim C12. The key dispatch is not case-insensitive for interface keys: `fnmatch` is
called without `FNM_CASEFOLD`, so `eth0_ip="10.0.0.5"` is not taken for an interface
key and appends nothing, while `ETH0_IP="10.0.0.5"` and `ETH0_ip="10.0.0.5"` append
the address. -/
theorem C12_lowercase_eth_key_ignored :
    strcasecmp "ETH0_IP".toList "eth0_ip".toList = 0 ∧
    opennebula (envOf (some [⟨1, HEADER⟩, ⟨2, "eth0_ip=\"10.0.0.5\"".toList⟩])
        (some "digest".toList)) freshConfig
      = some (0, { freshConfig with
          sc_stack := some "opennebula".toList, sc_instance := some "digest".toList }) ∧
    opennebula (envOf (some [⟨1, HEADER⟩, ⟨2, "ETH0_IP=\"10.0.0.5\"".toList⟩])
        (some "digest".toList)) freshConfig
      = some (0, { freshConfig with
          sc_stack := some "opennebula".toList, sc_instance := some "digest".toList,
          sc_netaddr := [⟨0, .AF_INET, .NET_IP, "10.0.0.5".toList⟩] }) ∧
    opennebula (envOf (some [⟨1, HEADER⟩, ⟨2, "ETH0_ip=\"10.0.0.5\"".toList⟩])
        (some "digest".toList)) freshConfig
      = some (0, { freshConfig with
          sc_stack := some "opennebula".toList, sc_instance := some "digest".toList,
          sc_netaddr := [⟨0, .AF_INET, .NET_IP, "10.0.0.5".toList⟩] }) := by
  decide

/-- Claim C14. The code does not return failure when the digest cannot be computed:
every line is consumed, `SHA256File` returns `NULL`, and `goto done` returns `ret`,
which is 0 after a valid header. -/
theorem C14_hash_failure_returns_zero :
    opennebula (envOf (some [⟨1, HEADER⟩, ⟨2, "ETH0_IP=\"10.0.0.5\"".toList⟩]) none)
        freshConfig
      = some (0, { freshConfig with
          sc_stack := some "opennebula".toList, sc_instance := some [],
          sc_netaddr := [⟨0, .AF_INET, .NET_IP, "10.0.0.5".toList⟩] }) := by
  decide

/-- Claim C15. The instance id does not keep its value at entry when hashing fails:
`sc_instance` is pointed at the fresh buffer before `SHA256File` is called, so after
the failure it is the empty string, where it was `NULL` at entry. -/
theorem C15_hash_failure_overwrites_instance :
    freshConfig.sc_instance = none ∧
    opennebula (envOf (some [⟨1, HEADER⟩]) none) freshConfig
      = some (0, { freshConfig with
          sc_stack := some "opennebula".toList, sc_instance := some [] }) ∧
    opennebula (envOf (some [⟨1, HEADER⟩]) none)
        { freshConfig with sc_instance := some "0123abcd".toList }
      = some (0, { freshConfig with
          sc_stack := some "opennebula".toList, sc_instance := some [] }) := by
  decide

/-- Claim C13. When the registration function reports a failure for the entry of a
single-valued interface line, or for a token of a `DNS` or `SEARCH_DOMAIN` line after
accepting the tokens in front of it, `opennebula` returns the non-zero code of that
failure with the configuration as it stands at that point, whatever lines follow;
`sc_hostname` and `sc_instance` are as they were at entry. -/
theorem C13_registration_failure (env : Env) (sc : system_config) (pre post : List Line)
    (st : State) (ln n : Nat) (q : Char)
    (hpre : parseLoop env (initState sc) pre = .next st)
    (hl : ln ≠ 1) (hn : n ≤ 65535) (hq : q = '"' ∨ q = '\'') :
    (∀ (sub : CStr) (af : AddrFamily) (kind : net_type) (X : CStr),
      (sub, af, kind) ∈ singleTable → X ≠ [] → '#' ∉ X → q ∉ X →
      env.addnetaddr_ret st.sc ⟨n, af, kind, X⟩ ≠ 0 →
      env.context = some (pre ++ ⟨ln, "ETH".toList ++ (Nat.repr n).toList ++ '_' :: sub
        ++ '=' :: q :: (X ++ [q])⟩ :: post) →
      opennebula env sc = some (env.addnetaddr_ret st.sc ⟨n, af, kind, X⟩, st.sc) ∧
      st.sc.sc_hostname = sc.sc_hostname ∧ st.sc.sc_instance = sc.sc_instance) ∧
    (∀ (name : CStr) (kind : net_type) (acc : List (CStr × Char)) (bad : CStr)
      (more : List (Char × CStr)),
      (name, kind) ∈ listTable →
      (∀ p ∈ acc, GoodToken p.1 ∧ (p.2 = ' ' ∨ p.2 = '\t')) →
      (∀ t ∈ bad :: more.map Prod.snd, GoodToken t) →
      (∀ p ∈ more, p.1 = ' ' ∨ p.1 = '\t') →
      (∀ sc' p, p ∈ acc → env.addnetaddr_ret sc' ⟨0, .AF_UNSPEC, kind, p.1⟩ = 0) →
      env.addnetaddr_ret (withTokens st.sc kind (acc.map Prod.fst))
        ⟨0, .AF_UNSPEC, kind, bad⟩ ≠ 0 →
      env.context = some (pre ++ ⟨ln, "ETH".toList ++ (Nat.repr n).toList ++ '_' :: name
        ++ '=' :: q :: (joinBefore acc (joinTokens bad more) ++ [q])⟩ :: post) →
      opennebula env sc
        = some (env.addnetaddr_ret (withTokens st.sc kind (acc.map Prod.fst))
            ⟨0, .AF_UNSPEC, kind, bad⟩, withTokens st.sc kind (acc.map Prod.fst)) ∧
      (withTokens st.sc kind (acc.map Prod.fst)).sc_hostname = sc.sc_hostname ∧
      (withTokens st.sc kind (acc.map Prod.fst)).sc_instance = sc.sc_instance) := by
  have hg := parseLoop_grows env pre (initState sc) st (Or.inl hpre)
  have hh : st.sc.sc_hostname = sc.sc_hostname := hg.2.1
  have hi : st.sc.sc_instance = sc.sc_instance := hg.2.2.1
  constructor
  · intro sub af kind X hsub hX hX1 hX2 hrej hctx
    obtain ⟨st', hstep, hsc, hret⟩ :=
      step_single_reject env st ln n sub af kind q X hl hn hsub hq hX hX1 hX2 hrej
    have := opennebula_done env sc pre post _ st st' hctx hpre hstep
    rw [hsc, hret] at this
    exact ⟨this, hh, hi⟩
  · intro name kind acc bad more hname hacc hbad hsep hok hrej hctx
    have hstep := step_list_reject env st ln n name kind q acc bad more hl hn hname hq hacc
      hbad hsep hok hrej
    exact ⟨opennebula_done env sc pre post _ st _ hctx hpre hstep, hh, hi⟩

/-- Claim C13, witness: registration rejects `ETH0_IP="10.0.0.5"` behind a `HOSTNAME` line;
the call returns -1, the line behind is not read, the host name is not committed and
no instance id is set. -/
theorem C13_registration_failure_witness :
    opennebula (envRejecting (some [⟨1, HEADER⟩, ⟨2, "HOSTNAME=\"custom\"".toList⟩,
        ⟨3, "ETH0_IP=\"10.0.0.5\"".toList⟩, ⟨4, "NETWORK=\"YES\"".toList⟩])
        (some "digest".toList)) freshConfig
      = some (-1, { freshConfig with sc_stack := some "opennebula".toList }) ∧
    ({ freshConfig with sc_stack := some "opennebula".toList } : system_config).sc_hostname
      = freshConfig.sc_hostname ∧
    ({ freshConfig with sc_stack := some "opennebula".toList } : system_config).sc_instance
      = freshConfig.sc_instance :=
  (C13_registration_failure
    (envRejecting (some [⟨1, HEADER⟩, ⟨2, "HOSTNAME=\"custom\"".toList⟩,
        ⟨3, "ETH0_IP=\"10.0.0.5\"".toList⟩, ⟨4, "NETWORK=\"YES\"".toList⟩])
        (some "digest".toList)) freshConfig
    [⟨1, HEADER⟩, ⟨2, "HOSTNAME=\"custom\"".toList⟩] [⟨4, "NETWORK=\"YES\"".toList⟩]
    ⟨{ freshConfig with sc_stack := some "opennebula".toList }, some "custom".toList, 0⟩
    3 0 '"' (by decide) (by decide) (by decide) (Or.inl rfl)).1
    "IP".toList .AF_INET .NET_IP "10.0.0.5".toList (by decide) (by decide) (by decide)
    (by decide) (by decide) rfl

/-- Claim C16, as stated, fails: the file has no `HOSTNAME` line, the host name
`preset` is set at entry, and the `ETH0_MAC` line replaces it by the name made from the
MAC address. -/
theorem C16_mac_overwrites_preset_hostname :
    (∀ l ∈ [(⟨1, HEADER⟩ : Line), ⟨2, "ETH0_MAC=\"02:00:0a:00:00:01\"".toList⟩],
      hostnameOf l = none) ∧
    opennebula (envOf (some [⟨1, HEADER⟩, ⟨2, "ETH0_MAC=\"02:00:0a:00:00:01\"".toList⟩])
        (some "digest".toList)) { freshConfig with sc_hostname := some "preset".toList }
      = some (0, { freshConfig with
          sc_stack := some "opennebula".toList,
          sc_hostname := some "vm02000a000001".toList,
          sc_instance := some "digest".toList,
          sc_netaddr := [⟨0, .AF_UNSPEC, .NET_MAC, "02:00:0a:00:00:01".toList⟩] }) := by
  decide

/-- Claim C16, amended. For every configuration at entry and every context file that has
neither a `HOSTNAME` line nor a `MAC` line of unit 0, `sc_hostname` at return equals
`sc_hostname` at entry. -/
theorem C16_hostname_kept (env : Env) (sc : system_config) (lines : List Line) (r : Int)
    (sc' : system_config) (hctx : env.context = some lines)
    (h : opennebula env sc = some (r, sc'))
    (hno : ∀ l ∈ lines, hostnameOf l = none) (hmac : ∀ l ∈ lines, mac0Of l = none) :
    sc'.sc_hostname = sc.sc_hostname := by
  rcases opennebula_cases env sc lines r sc' hctx h with ⟨st, hp, _, hsc⟩ | ⟨st, hp, hf⟩
  · rw [hsc]
    exact (parseLoop_grows env lines _ st (Or.inr hp)).2.1
  · have hst : st.hname = none := by
      rw [parseLoop_stage env lines _ st hp]
      exact foldl_stage_none lines hno hmac
    have e : sc'.sc_hostname = (finish env st).2.sc_hostname := by rw [hf]
    rw [e, finish_hostname env st hst]
    exact (parseLoop_grows env lines _ st (Or.inl hp)).2.1

/-- Claim C16, witness: with `ETH1_MAC` and `ETH0_IP` lines only, `preset` stays. -/
theorem C16_hostname_kept_witness :
    opennebula (envOf (some [⟨1, HEADER⟩, ⟨2, "ETH1_MAC=\"02:00:0a:00:00:01\"".toList⟩,
        ⟨3, "ETH0_IP=\"10.0.0.5\"".toList⟩]) (some "digest".toList))
        { freshConfig with sc_hostname := some "preset".toList }
      = some (0, { freshConfig with
          sc_stack := some "opennebula".toList,
          sc_hostname := some "preset".toList,
          sc_instance := some "digest".toList,
          sc_netaddr := [⟨1, .AF_UNSPEC, .NET_MAC, "02:00:0a:00:00:01".toList⟩,
            ⟨0, .AF_INET, .NET_IP, "10.0.0.5".toList⟩] }) ∧
    ({ freshConfig with
        sc_stack := some "opennebula".toList,
        sc_hostname := some "preset".toList,
        sc_instance := some "digest".toList,
        sc_netaddr := [⟨1, .AF_UNSPEC, .NET_MAC, "02:00:0a:00:00:01".toList⟩,
          ⟨0, .AF_INET, .NET_IP, "10.0.0.5".toList⟩] } : system_config).sc_hostname
      = ({ freshConfig with sc_hostname := some "preset".toList } : system_config).sc_hostname :=
  ⟨by decide,
    C16_hostname_kept
      (envOf (some [⟨1, HEADER⟩, ⟨2, "ETH1_MAC=\"02:00:0a:00:00:01\"".toList⟩,
        ⟨3, "ETH0_IP=\"10.0.0.5\"".toList⟩]) (some "digest".toList))
      { freshConfig with sc_hostname := some "preset".toList }
      [⟨1, HEADER⟩, ⟨2, "ETH1_MAC=\"02:00:0a:00:00:01\"".toList⟩,
        ⟨3, "ETH0_IP=\"10.0.0.5\"".toList⟩] 0
      { freshConfig with
          sc_stack := some "opennebula".toList,
          sc_hostname := some "preset".toList,
          sc_instance := some "digest".toList,
          sc_netaddr := [⟨1, .AF_UNSPEC, .NET_MAC, "02:00:0a:00:00:01".toList⟩,
            ⟨0, .AF_INET, .NET_IP, "10.0.0.5".toList⟩] }
      rfl (by decide) (by decide) (by decide)⟩

/-- Claim C17. If every address of kind DNS or DNS_SEARCH_DOMAIN has unit 0 at entry, the
same holds at return, for every context file: the token loop registers with unit 0
whatever the unit of the key. -/
theorem C17_dns_unit_zero (env : Env) (sc : system_config) (r : Int) (sc' : system_config)
    (h : opennebula env sc = some (r, sc'))
    (hinit : ∀ a ∈ sc.sc_netaddr, DnsUnitZero a) :
    ∀ a ∈ sc'.sc_netaddr, DnsUnitZero a := by
  obtain ⟨ext, he, hext⟩ := opennebula_netaddr env sc r sc' h
  intro a ha
  rw [he] at ha
  rcases List.mem_append.1 ha with h1 | h1
  · exact hinit a h1
  · exact hext a h1

/-- Claim C17, witness: `ETH3_DNS="8.8.8.8"` and `ETH7_SEARCH_DOMAIN="example.org"`
register with unit 0. -/
theorem C17_dns_unit_zero_witness :
    opennebula (envOf (some [⟨1, HEADER⟩, ⟨2, "ETH3_DNS=\"8.8.8.8\"".toList⟩,
        ⟨3, "ETH7_SEARCH_DOMAIN=\"example.org\"".toList⟩]) (some "digest".toList)) freshConfig
      = some (0, { freshConfig with
          sc_stack := some "opennebula".toList,
          sc_instance := some "digest".toList,
          sc_netaddr := [⟨0, .AF_UNSPEC, .NET_DNS, "8.8.8.8".toList⟩,
            ⟨0, .AF_UNSPEC, .NET_DNS_DOMAIN, "example.org".toList⟩] }) ∧
    ∀ a ∈ [(⟨0, .AF_UNSPEC, .NET_DNS, "8.8.8.8".toList⟩ : net_addr),
        ⟨0, .AF_UNSPEC, .NET_DNS_DOMAIN, "example.org".toList⟩], DnsUnitZero a :=
  ⟨by decide,
    C17_dns_unit_zero
      (envOf (some [⟨1, HEADER⟩, ⟨2, "ETH3_DNS=\"8.8.8.8\"".toList⟩,
        ⟨3, "ETH7_SEARCH_DOMAIN=\"example.org\"".toList⟩]) (some "digest".toList)) freshConfig 0
      { freshConfig with
          sc_stack := some "opennebula".toList,
          sc_instance := some "digest".toList,
          sc_netaddr := [⟨0, .AF_UNSPEC, .NET_DNS, "8.8.8.8".toList⟩,
            ⟨0, .AF_UNSPEC, .NET_DNS_DOMAIN, "example.org".toList⟩] }
      (by decide) (by decide)⟩

/-- Claim C18, as stated, fails: the first line `#!/bin/sh` is not the header and the
call fails, but `sc_stack` has been set to `opennebula` in the fresh configuration. -/
theorem C18_header_mismatch_sets_stack :
    opennebula (envOf (some [⟨1, "#!/bin/sh".toList⟩, ⟨2, "ETH0_IP=\"10.0.0.5\"".toList⟩])
        (some "digest".toList)) freshConfig
      = some (1, { freshConfig with sc_stack := some "opennebula".toList }) ∧
    ({ freshConfig with sc_stack := some "opennebula".toList } : system_config) ≠ freshConfig := by
  decide

/-- Claim C18, amended. For every context file whose first line, read as line 1, is not
exactly the header, `opennebula` fails and every field of the configuration except
`sc_stack`, which is set to `opennebula`, equals its value at entry. -/
theorem C18_header_mismatch_frame (env : Env) (sc : system_config) (l : Line)
    (ls : List Line) (hctx : env.context = some (l :: ls)) (hl : l.lineno = 1)
    (hnul : '\x00' ∉ l.text) (hne : l.text ≠ HEADER) :
    ∃ r, r ≠ 0 ∧
      opennebula env sc = some (r, { sc with sc_stack := some "opennebula".toList }) := by
  have hcmp : strcmp l.text HEADER ≠ 0 :=
    fun h0 => hne (strcmp_eq_zero l.text HEADER hnul (by decide) h0)
  exact ⟨_, hcmp, header_mismatch env sc l ls hctx hl hcmp⟩

/-- Claim C18, witness: the first line `#!/bin/sh`. -/
theorem C18_header_mismatch_frame_witness :
    ∃ r, r ≠ 0 ∧
      opennebula (envOf (some [⟨1, "#!/bin/sh".toList⟩, ⟨2, "ETH0_IP=\"10.0.0.5\"".toList⟩])
          (some "digest".toList)) freshConfig
        = some (r, { freshConfig with sc_stack := some "opennebula".toList }) :=
  C18_header_mismatch_frame _ freshConfig ⟨1, "#!/bin/sh".toList⟩
    [⟨2, "ETH0_IP=\"10.0.0.5\"".toList⟩] rfl rfl (by decide) (by decide)

/-- Claim C19. For a line read after the header whose key is `NETWORK` in any letter
case: a value equal to `YES` in any letter case sets `sc_network` to 1, any other
value leaves the whole state as it was; in both cases the loop goes on. -/
theorem C19_network_flag (env : Env) (st : State) (l : Line) (k v : CStr) (b : List Char)
    (hl : l.lineno ≠ 1) (hs : splitLine l.text = some (k, v, b))
    (hk : strcasecmp "NETWORK".toList k = 0) :
    (strcasecmp "YES".toList v = 0 →
      step env st l = .next { st with sc := { st.sc with sc_network := 1 } }) ∧
    (strcasecmp "YES".toList v ≠ 0 → step env st l = .next st) := by
  unfold step
  rw [if_neg hl, hs]
  simp only
  unfold dispatch
  rw [if_pos hk]
  constructor
  · intro hy
    rw [if_pos hy]
  · intro hy
    rw [if_neg hy, if_neg hy]

/-- Claim C19, witness: `network="yes"` sets the flag, `NETWORK="NO"` leaves a flag that
is set as it is. -/
theorem C19_network_flag_witness :
    step (envOf none none) ⟨freshConfig, none, 0⟩ ⟨2, "network=\"yes\"".toList⟩
      = .next ⟨{ freshConfig with sc_network := 1 }, none, 0⟩ ∧
    step (envOf none none) ⟨{ freshConfig with sc_network := 1 }, none, 0⟩
        ⟨2, "NETWORK=\"NO\"".toList⟩
      = .next ⟨{ freshConfig with sc_network := 1 }, none, 0⟩ :=
  ⟨(C19_network_flag (envOf none none) ⟨freshConfig, none, 0⟩ ⟨2, "network=\"yes\"".toList⟩
      "network".toList "yes".toList ['\x00'] (by decide) (by decide) (by decide)).1 (by decide),
    (C19_network_flag (envOf none none) ⟨{ freshConfig with sc_network := 1 }, none, 0⟩
      ⟨2, "NETWORK=\"NO\"".toList⟩ "NETWORK".toList "NO".toList ['\x00'] (by decide)
      (by decide) (by decide)).2 (by decide)⟩

/-- Claim C20. Addresses with an empty value are appended: the token loop registers the
empty token in front of a leading separator, between two separators in a row, and in
front of text that follows the closing quote. -/
theorem C20_empty_tokens_registered :
    opennebula (envOf (some [⟨1, HEADER⟩, ⟨2, "ETH0_DNS=\"8.8.8.8  8.8.4.4\"".toList⟩])
        (some "digest".toList)) freshConfig
      = some (0, { freshConfig with
          sc_stack := some "opennebula".toList,
          sc_instance := some "digest".toList,
          sc_netaddr := [⟨0, .AF_UNSPEC, .NET_DNS, "8.8.8.8".toList⟩,
            ⟨0, .AF_UNSPEC, .NET_DNS, []⟩, ⟨0, .AF_UNSPEC, .NET_DNS, "8.8.4.4".toList⟩] }) ∧
    opennebula (envOf (some [⟨1, HEADER⟩, ⟨2, "ETH0_SEARCH_DOMAIN=\" example.org\"".toList⟩])
        (some "digest".toList)) freshConfig
      = some (0, { freshConfig with
          sc_stack := some "opennebula".toList,
          sc_instance := some "digest".toList,
          sc_netaddr := [⟨0, .AF_UNSPEC, .NET_DNS_DOMAIN, []⟩,
            ⟨0, .AF_UNSPEC, .NET_DNS_DOMAIN, "example.org".toList⟩] }) ∧
    opennebula (envOf (some [⟨1, HEADER⟩, ⟨2, "ETH0_DNS=\"8.8.8.8\" x ".toList⟩])
        (some "digest".toList)) freshConfig
      = some (0, { freshConfig with
          sc_stack := some "opennebula".toList,
          sc_instance := some "digest".toList,
          sc_netaddr := [⟨0, .AF_UNSPEC, .NET_DNS, "8.8.8.8".toList⟩,
            ⟨0, .AF_UNSPEC, .NET_DNS, []⟩, ⟨0, .AF_UNSPEC, .NET_DNS, "x".toList⟩] }) := by
  decide

end OpenNebula
